import Mathlib

set_option maxRecDepth 2000

/-!
Verification development for `salt/count_states.py`, a script that counts the
salt lowstates planned for a deployment by invoking `salt-call` show-lowstate
commands and recursively expanding `state.sls` module invocations.

The script is embedded shallowly:

* JSON-compatible data (parsed `salt-call` output, pillar contexts) is the
  mutual inductive `Json`/`JArr`/`JObj`.
* Python dict/list/string primitives used by the script (`d[k]`, `l[i]`,
  `len`, `k in d`, `d.get(k, {})`, iteration) are the `py*` functions,
  returning `Except ScriptError` where Python would raise.
* `json.dumps` is `json_dumps` (default separators, `ensure_ascii` escaping)
  and `re.sub('"/dev/.*?"', '"/dev/sda2"', s)` is `re_sub_dev`, a left-to-right
  scanner with a non-greedy match that stops at the first `"` and refuses to
  cross a newline, exactly like the lazy `.*?` of the `re` module.
* the external `salt-call` process is an oracle `Exec` mapping the exact
  formatted command line to an exit code and (already parsed, or unparseable)
  standard output; `execute_command` consumes it the way the script does.
* the unbounded mutual recursion `run_lowstate`/`count_inner_states` is made
  total with a fuel parameter that decreases exactly once per nested
  `run_lowstate` level; fuel exhaustion is a dedicated error value.
-/

/-! Json data model (mutual inductive so that structural recursion and kernel
evaluation work). -/

mutual
inductive Json where
  | null : Json
  | bool (b : Bool) : Json
  | num (n : Int) : Json
  | str (s : String) : Json
  | arr (elems : JArr) : Json
  | obj (fields : JObj) : Json
inductive JArr where
  | nil : JArr
  | cons (hd : Json) (tl : JArr) : JArr
inductive JObj where
  | nil : JObj
  | cons (key : String) (val : Json) (tl : JObj) : JObj
end

mutual
def jeq : Json → Json → Bool
  | .null, .null => true
  | .bool a, .bool b => a == b
  | .num a, .num b => a == b
  | .str a, .str b => a == b
  | .arr a, .arr b => aeq a b
  | .obj a, .obj b => oeq a b
  | _, _ => false
def aeq : JArr → JArr → Bool
  | .nil, .nil => true
  | .cons x xs, .cons y ys => jeq x y && aeq xs ys
  | _, _ => false
def oeq : JObj → JObj → Bool
  | .nil, .nil => true
  | .cons k v xs, .cons k2 v2 ys => k == k2 && jeq v v2 && oeq xs ys
  | _, _ => false
end

mutual
def jeqIff : ∀ a b : Json, jeq a b = true ↔ a = b
  | .null, b => by cases b <;> simp [jeq]
  | .bool x, b => by cases b <;> simp [jeq]
  | .num x, b => by cases b <;> simp [jeq]
  | .str x, b => by cases b <;> simp [jeq]
  | .arr x, b => by cases b <;> simp [jeq, aeqIff x _]
  | .obj x, b => by cases b <;> simp [jeq, oeqIff x _]
def aeqIff : ∀ a b : JArr, aeq a b = true ↔ a = b
  | .nil, b => by cases b <;> simp [aeq]
  | .cons x xs, b => by cases b <;> simp [aeq, jeqIff x _, aeqIff xs _]
def oeqIff : ∀ a b : JObj, oeq a b = true ↔ a = b
  | .nil, b => by cases b <;> simp [oeq]
  | .cons k v xs, b => by cases b <;> simp [oeq, jeqIff v _, oeqIff xs _, and_assoc]
end

instance : DecidableEq Json := fun a b => decidable_of_iff _ (jeqIff a b)
instance : DecidableEq JArr := fun a b => decidable_of_iff _ (aeqIff a b)
instance : DecidableEq JObj := fun a b => decidable_of_iff _ (oeqIff a b)

instance {α β : Type} [DecidableEq α] [DecidableEq β] : DecidableEq (Except α β) :=
  fun a b =>
    match a, b with
    | .error x, .error y =>
        if h : x = y then .isTrue (h ▸ rfl) else .isFalse (fun hc => h (Except.error.inj hc))
    | .ok x, .ok y =>
        if h : x = y then .isTrue (h ▸ rfl) else .isFalse (fun hc => h (Except.ok.inj hc))
    | .error _, .ok _ => .isFalse (fun hc => Except.noConfusion hc)
    | .ok _, .error _ => .isFalse (fun hc => Except.noConfusion hc)

/-! Conversions between the mutual-inductive spines and ordinary lists, plus
short smart constructors used to write concrete fixtures. -/

def jarrList : JArr → List Json
  | .nil => []
  | .cons h t => h :: jarrList t

def jarrOf : List Json → JArr
  | [] => .nil
  | h :: t => .cons h (jarrOf t)

def jobjFields : JObj → List (String × Json)
  | .nil => []
  | .cons k v t => (k, v) :: jobjFields t

def jobjOf : List (String × Json) → JObj
  | [] => .nil
  | (k, v) :: t => .cons k v (jobjOf t)

def ja (l : List Json) : Json := Json.arr (jarrOf l)

def jo (l : List (String × Json)) : Json := Json.obj (jobjOf l)

/-! Python-level primitives. Each mirrors the exact construct the script uses
and errs where Python would raise. -/

inductive ScriptError where
  | jsonDecodeFailure : ScriptError
  | keyMissing (k : String) : ScriptError
  | typeMismatch : ScriptError
  | indexOutOfRange : ScriptError
  | attributeMissing : ScriptError
  | fuelExhausted : ScriptError
  deriving DecidableEq

def lookupField : JObj → String → Option Json
  | .nil, _ => none
  | .cons k v t, key =>
      match lookupField t key with
      | some r => some r
      | none => if k = key then some v else none

def hasField (o : JObj) (k : String) : Bool := (lookupField o k).isSome

def isPref : List Char → List Char → Bool
  | [], _ => true
  | _ :: _, [] => false
  | p :: ps, c :: cs => p = c && isPref ps cs

def containsSub : List Char → List Char → Bool
  | n, [] => isPref n []
  | n, c :: t => isPref n (c :: t) || containsSub n t

def pyGetItem (j : Json) (k : String) : Except ScriptError Json :=
  match j with
  | .obj o =>
      match lookupField o k with
      | some v => .ok v
      | none => .error (.keyMissing k)
  | _ => .error .typeMismatch

def pyIndex (j : Json) (i : Nat) : Except ScriptError Json :=
  match j with
  | .arr l =>
      match (jarrList l)[i]? with
      | some v => .ok v
      | none => .error .indexOutOfRange
  | .str s =>
      match s.toList[i]? with
      | some c => .ok (.str (String.mk [c]))
      | none => .error .indexOutOfRange
  | _ => .error .typeMismatch

def pyLen (j : Json) : Except ScriptError Nat :=
  match j with
  | .arr l => .ok (jarrList l).length
  | .obj o => .ok (jobjFields o).length
  | .str s => .ok s.toList.length
  | _ => .error .typeMismatch

def pyContains (j : Json) (k : String) : Except ScriptError Bool :=
  match j with
  | .obj o => .ok (hasField o k)
  | .arr l => .ok ((jarrList l).any (fun x => jeq x (Json.str k)))
  | .str s => .ok (containsSub k.toList s.toList)
  | _ => .error .typeMismatch

def pyGetDefault (j : Json) (k : String) (d : Json) : Except ScriptError Json :=
  match j with
  | .obj o => .ok ((lookupField o k).getD d)
  | _ => .error .attributeMissing

def pyIter (j : Json) : Except ScriptError (List Json) :=
  match j with
  | .arr l => .ok (jarrList l)
  | .obj o => .ok ((jobjFields o).map (fun kv => Json.str kv.1))
  | .str s => .ok (s.toList.map (fun c => Json.str (String.mk [c])))
  | _ => .error .typeMismatch

/-! Serialization: `json.dumps` with its defaults (separators `, ` and `: `,
`ensure_ascii=True`). -/

def hexDigit (n : Nat) : Char := "0123456789abcdef".toList.getD n '0'

def hex4 (n : Nat) : List Char :=
  [hexDigit (n / 4096 % 16), hexDigit (n / 256 % 16), hexDigit (n / 16 % 16), hexDigit (n % 16)]

def digitChar (n : Nat) : Char := "0123456789".toList.getD n '0'

def natCharsF : Nat → Nat → List Char
  | 0, _ => []
  | f + 1, n => if n < 10 then [digitChar n] else natCharsF f (n / 10) ++ [digitChar (n % 10)]

def natChars (n : Nat) : List Char := natCharsF (n + 1) n

def intChars (i : Int) : List Char :=
  if i < 0 then '-' :: natChars i.natAbs else natChars i.toNat

def escapeChar (c : Char) : List Char :=
  if c = '"' then ['\\', '"']
  else if c = '\\' then ['\\', '\\']
  else if c = '\n' then ['\\', 'n']
  else if c = '\t' then ['\\', 't']
  else if c = '\r' then ['\\', 'r']
  else if c = Char.ofNat 8 then ['\\', 'b']
  else if c = Char.ofNat 12 then ['\\', 'f']
  else if 0x20 ≤ c.toNat ∧ c.toNat ≤ 0x7e then [c]
  else if c.toNat < 0x10000 then '\\' :: 'u' :: hex4 c.toNat
  else
    let v := c.toNat - 0x10000
    ('\\' :: 'u' :: hex4 (0xd800 + v / 1024)) ++ ('\\' :: 'u' :: hex4 (0xdc00 + v % 1024))

def escL (l : List Char) : List Char := (l.map escapeChar).flatten

def escChars (s : String) : List Char := escL s.toList

def lbrace : Char := Char.ofNat 123

def rbrace : Char := Char.ofNat 125

mutual
def dumpChars : Json → List Char
  | .null => "null".toList
  | .bool true => "true".toList
  | .bool false => "false".toList
  | .num n => intChars n
  | .str s => '"' :: escChars s ++ ['"']
  | .arr l => '[' :: dumpArr l ++ [']']
  | .obj o => lbrace :: dumpObj o ++ [rbrace]
def dumpArr : JArr → List Char
  | .nil => []
  | .cons x .nil => dumpChars x
  | .cons x (.cons y xs) => dumpChars x ++ ',' :: ' ' :: dumpArr (.cons y xs)
def dumpObj : JObj → List Char
  | .nil => []
  | .cons k v .nil => '"' :: escChars k ++ '"' :: ':' :: ' ' :: dumpChars v
  | .cons k v (.cons k2 v2 xs) =>
      ('"' :: escChars k ++ '"' :: ':' :: ' ' :: dumpChars v) ++
        ',' :: ' ' :: dumpObj (.cons k2 v2 xs)
end

def json_dumps (j : Json) : List Char := dumpChars j

/-! The textual substitution `re.sub('"/dev/.*?"', '"/dev/sda2"', s)` of
`run_lowstate`. A match must start with `"/dev/`; the lazy `.*?` extends to
the first following `"` and (since `.` never matches a newline) fails if a
newline comes first; the whole match is replaced by `"/dev/sda2"` and
scanning resumes after the replacement. -/

def devPat : List Char := "/dev/".toList

def scanClose : List Char → Option (List Char)
  | [] => none
  | c :: cs => if c = '"' then some cs else if c = '\n' then none else scanClose cs

def subFuel : Nat → List Char → List Char
  | _, [] => []
  | 0, l => l
  | f + 1, c :: cs =>
      if c = '"' then
        match (if isPref devPat cs then scanClose (cs.drop 5) else none) with
        | some rest => '"' :: "/dev/sda2".toList ++ '"' :: subFuel f rest
        | none => c :: subFuel f cs
      else c :: subFuel f cs

def re_sub_dev (l : List Char) : List Char := subFuel l.length l

/-! External process boundary. `execute_command` captures the script's
behaviour exactly: it never inspects the exit code or standard error; it only
feeds captured standard output to `json.loads`, whose failure (on any
unparseable output) propagates as an uncaught exception. -/

structure ProcResult where
  exitCode : Int
  stdout : Option Json

def Exec : Type := String → ProcResult

def execute_command (ex : Exec) (cmd : String) : Except ScriptError Json :=
  match (ex cmd).stdout with
  | some j => .ok j
  | none => .error .jsonDecodeFailure

def sqc : Char := Char.ofNat 39

def squote : String := String.mk [sqc]

def LOW_STATES : List String := ["os_setup"]

def SALTENVS : List String := ["predeployment", "base"]

def lowstate_cmd (saltenv : String) : String :=
  "salt-call --local -l quiet --no-color state.show_lowstate saltenv=" ++ saltenv ++ " --out=json"

def lowstate_sls_cmd (state_path saltenv pillar : String) : String :=
  "salt-call --local -l quiet --no-color state.show_low_sls " ++ state_path ++
    " saltenv=" ++ saltenv ++ " pillar=" ++ squote ++ pillar ++ squote ++ " --out=json"

/-! Rendering of a non-string `mod` into the command line goes through
Python's `str()` (via `str.format`), which prints parsed-JSON values with
`repr` of the elements: single-quoted strings, `True`, `None`. -/

mutual
def pyReprChars : Json → List Char
  | .null => "None".toList
  | .bool true => "True".toList
  | .bool false => "False".toList
  | .num n => intChars n
  | .str s => sqc :: s.toList ++ [sqc]
  | .arr l => '[' :: pyReprArr l ++ [']']
  | .obj o => lbrace :: pyReprObj o ++ [rbrace]
def pyReprArr : JArr → List Char
  | .nil => []
  | .cons x .nil => pyReprChars x
  | .cons x (.cons y xs) => pyReprChars x ++ ',' :: ' ' :: pyReprArr (.cons y xs)
def pyReprObj : JObj → List Char
  | .nil => []
  | .cons k v .nil => sqc :: k.toList ++ sqc :: ':' :: ' ' :: pyReprChars v
  | .cons k v (.cons k2 v2 xs) =>
      (sqc :: k.toList ++ sqc :: ':' :: ' ' :: pyReprChars v) ++ ',' :: ' ' :: pyReprObj (.cons k2 v2 xs)
end

def pyArg : Json → String
  | .str s => s
  | j => String.mk (pyReprChars j)

/-! The script itself. The `_go` functions are one recursion level of the
mutually recursive pair `run_lowstate`/`count_inner_states`, parameterised by
the `run_lowstate` to use for nested renders; the fueled wrappers tie the
knot, spending one unit of fuel per nested `run_lowstate` level.

`count_record_go` is the body of the `for state in states["local"]` loop of
`count_inner_states` for one record: it returns the count contributed by the
record together with the value of the loop-carried `pillar` variable after
the record (the Python `pillar` is initialised once, before the loop, and is
only ever reassigned inside the `len(state["state.sls"]) > 1` branch, so it
persists from one record to the next). The field accesses happen in source
order: the `LOGGER.debug` argument `state["name"]`, then
`state["state.sls"][0]["mods"]`, then the conditional pillar reassignment,
then the `for mod in mods` loop. -/

def RL : Type := String → String → Json → Except ScriptError Nat

def count_mods_go (rl : RL) (saltenv : String) (pillar : Json) : List Json → Except ScriptError Nat
  | [] => .ok 0
  | m :: ms => do
      let c ← rl (pyArg m) saltenv pillar
      let rest ← count_mods_go rl saltenv pillar ms
      .ok (c + rest)

def derive_pillar (pillar sls : Json) (slsLen : Nat) : Except ScriptError Json :=
  if slsLen > 1 then do
    let second ← pyIndex sls 1
    pyGetDefault second "pillar" (Json.obj JObj.nil)
  else .ok pillar

def count_record_go (rl : RL) (saltenv : String) (pillar : Json) (state : Json) :
    Except ScriptError (Nat × Json) := do
  let cond ← pyContains state "state.sls"
  if cond then do
    let marker ← pyGetItem state "state"
    if jeq marker (Json.str "module") then do
      let _ ← pyGetItem state "name"
      let sls ← pyGetItem state "state.sls"
      let first ← pyIndex sls 0
      let mods ← pyGetItem first "mods"
      let slsLen ← pyLen sls
      let pillar2 ← derive_pillar pillar sls slsLen
      let modList ← pyIter mods
      let c ← count_mods_go rl saltenv pillar2 modList
      .ok (c, pillar2)
    else .ok (0, pillar)
  else .ok (0, pillar)

def count_records_go (rl : RL) (saltenv : String) (pillar : Json) :
    List Json → Except ScriptError Nat
  | [] => .ok 0
  | st :: rest => do
      let cp ← count_record_go rl saltenv pillar st
      let m ← count_records_go rl saltenv cp.2 rest
      .ok (cp.1 + m)

def count_inner_states_go (rl : RL) (saltenv : String) (states : Json) :
    Except ScriptError Nat := do
  let loc ← pyGetItem states "local"
  let l ← pyIter loc
  count_records_go rl saltenv (Json.obj JObj.nil) l

def run_lowstate_go (ex : Exec) (rl : RL) (state_path saltenv : String) (pillar : Json) :
    Except ScriptError Nat := do
  let pstr := re_sub_dev (json_dumps pillar)
  let cmd := lowstate_sls_cmd state_path saltenv (String.mk pstr)
  let state_data ← execute_command ex cmd
  let loc ← pyGetItem state_data "local"
  let n ← pyLen loc
  let m ← count_inner_states_go rl saltenv state_data
  .ok (n + m)

def run_lowstate : Nat → Exec → String → String → Json → Except ScriptError Nat
  | 0, _, _, _, _ => .error .fuelExhausted
  | fuel + 1, ex, state_path, saltenv, pillar =>
      run_lowstate_go ex (run_lowstate fuel ex) state_path saltenv pillar

def count_inner_states (fuel : Nat) (ex : Exec) (saltenv : String) (states : Json) :
    Except ScriptError Nat :=
  count_inner_states_go (run_lowstate fuel ex) saltenv states

def main_low_go (fuel : Nat) (ex : Exec) : List String → Except ScriptError Nat
  | [] => .ok 0
  | s :: rest => do
      let c ← run_lowstate fuel ex s "base" (Json.obj JObj.nil)
      let m ← main_low_go fuel ex rest
      .ok (c + m)

def main_env_go (fuel : Nat) (ex : Exec) : List String → Except ScriptError Nat
  | [] => .ok 0
  | saltenv :: rest => do
      let state_data ← execute_command ex (lowstate_cmd saltenv)
      let loc ← pyGetItem state_data "local"
      let n ← pyLen loc
      let m ← count_inner_states fuel ex saltenv state_data
      let r ← main_env_go fuel ex rest
      .ok (n + m + r)

def count_states_main (fuel : Nat) (ex : Exec) : Except ScriptError Nat := do
  let a ← main_low_go fuel ex LOW_STATES
  let b ← main_env_go fuel ex SALTENVS
  .ok (a + b)

/-! Specification-side definitions. These follow the wording of the
specification (they are not part of the embedded script) and are compared
with the embedded definitions by the theorems below. -/

/-- Placeholder substitution on one string, as the spec describes it: a string
that starts with the (quoted) device-path pattern becomes the fixed boot
partition path. -/
def devStr (s : String) : String :=
  if isPref devPat s.toList then "/dev/sda2" else s

mutual
/-- Normalization as a structural map replacing every matching string, keys of
mappings included, by the placeholder. -/
def devMap : Json → Json
  | .str s => .str (devStr s)
  | .arr l => .arr (devMapArr l)
  | .obj o => .obj (devMapObj o)
  | j => j
def devMapArr : JArr → JArr
  | .nil => .nil
  | .cons x xs => .cons (devMap x) (devMapArr xs)
def devMapObj : JObj → JObj
  | .nil => .nil
  | .cons k v t => .cons (devStr k) (devMap v) (devMapObj t)
end

mutual
/-- Normalization exactly as claim C6 words it: only string values (at any
nesting depth) are replaced; mapping keys are left alone. -/
def devMapV : Json → Json
  | .str s => .str (devStr s)
  | .arr l => .arr (devMapVArr l)
  | .obj o => .obj (devMapVObj o)
  | j => j
def devMapVArr : JArr → JArr
  | .nil => .nil
  | .cons x xs => .cons (devMapV x) (devMapVArr xs)
def devMapVObj : JObj → JObj
  | .nil => .nil
  | .cons k v t => .cons k (devMapV v) (devMapVObj t)
end

def noQuote (s : String) : Bool := s.toList.all (fun c => c != '"')

mutual
/-- Cleanliness of a context: no string anywhere in it (keys included)
contains a double-quote character. -/
def cleanJson : Json → Bool
  | .str s => noQuote s
  | .arr l => cleanArr l
  | .obj o => cleanObj o
  | _ => true
def cleanArr : JArr → Bool
  | .nil => true
  | .cons x xs => cleanJson x && cleanArr xs
def cleanObj : JObj → Bool
  | .nil => true
  | .cons k v t => noQuote k && cleanJson v && cleanObj t
end

/-- Decides that a record is cleanly skipped by the expansion loop: the
membership test `"state.sls" in state` evaluates to false, or it evaluates to
true while the `state` kind marker is present and differs from `"module"`. -/
def notModuleRecord : Json → Bool
  | .obj o =>
      match lookupField o "state.sls" with
      | none => true
      | some _ =>
          match lookupField o "state" with
          | some v => !(jeq v (Json.str "module"))
          | none => false
  | .arr l => !((jarrList l).any (fun x => jeq x (Json.str "state.sls")))
  | .str s => !(containsSub "state.sls".toList s.toList)
  | _ => false

/-- Records whose processing does not depend on the loop-carried pillar: every
record except a detected module invocation whose `state.sls` list has exactly
one entry (such a record is rendered with whatever pillar is carried in). -/
def selfContained : Json → Bool
  | .obj o =>
      match lookupField o "state.sls" with
      | none => true
      | some sls =>
          match lookupField o "state" with
          | none => true
          | some marker =>
              if jeq marker (Json.str "module") then
                match sls with
                | .arr es =>
                    match jarrList es with
                    | [] => true
                    | [_] => false
                    | _ :: _ :: _ => true
                | _ => true
              else true
  | _ => true

/-- Pure mirror of the loop-carried pillar update performed by one record on
the success path: a detected module invocation whose `state.sls` has a second
entry that is a mapping installs that entry's `pillar` field (defaulting to
the empty mapping); every other record leaves the carried pillar unchanged. -/
def pillarUpd (p : Json) (r : Json) : Json :=
  match r with
  | .obj o =>
      if hasField o "state.sls" then
        match lookupField o "state" with
        | some marker =>
            if jeq marker (Json.str "module") then
              match lookupField o "state.sls" with
              | some (Json.arr es) =>
                  match (jarrList es)[1]? with
                  | some (Json.obj d) => (lookupField d "pillar").getD (Json.obj JObj.nil)
                  | _ => p
              | _ => p
            else p
        | none => p
      else p
  | _ => p

/-- Carried pillar after a list of records. -/
def pillarThread (p : Json) (l : List Json) : Json := l.foldl pillarUpd p

/-- Monadic sum of a list of already-computed per-record contributions. -/
def listFoldSum : List (Except ScriptError Nat) → Except ScriptError Nat
  | [] => .ok 0
  | e :: es => do
      let c ← e
      let m ← listFoldSum es
      .ok (c + m)

/-- Expansion of one detected module-invocation record, in the words of claim
C8: the module names come from the `mods` list of the first `state.sls`
entry, the override context is derived from the optional second entry, and
for each module name one child render is performed and its result added. -/
def c8_expand (rl : RL) (saltenv : String) (pillar : Json) (r : Json) :
    Except ScriptError Nat := do
  let sls ← pyGetItem r "state.sls"
  let first ← pyIndex sls 0
  let mods ← pyGetItem first "mods"
  let slsLen ← pyLen sls
  let pillar2 ← derive_pillar pillar sls slsLen
  let modList ← pyIter mods
  count_mods_go rl saltenv pillar2 modList

/-! Concrete fixtures (records, batches and oracles) used by the witnesses and
counterexamples below. -/

def emptyPillarStr : String := String.mk (re_sub_dev (json_dumps (Json.obj JObj.nil)))

def recPlain1 : Json := jo [("state", .str "file"), ("name", .str "one")]

def recPlain2 : Json := jo [("state", .str "pkg"), ("name", .str "two")]

def recPlain3 : Json := jo [("state", .str "service"), ("name", .str "three")]

def plainRec : Json := jo [("state", .str "cmd"), ("name", .str "p")]

def dataA : Json := jo [("local", ja [recPlain1, recPlain2, recPlain3])]

def exA : Exec := fun cmd =>
  if cmd = lowstate_sls_cmd "top" "base" emptyPillarStr then ⟨0, some dataA⟩ else ⟨1, none⟩

def pilKV : Json := jo [("k", .str "v")]

def recSetsPillar : Json :=
  jo [("state", .str "module"), ("name", .str "one"),
      ("state.sls", ja [jo [("mods", ja [.str "m1"])], jo [("pillar", pilKV)]])]

def recSingle : Json :=
  jo [("state", .str "module"), ("name", .str "two"),
      ("state.sls", ja [jo [("mods", ja [.str "m2"])]])]

def statesC2 : Json := jo [("local", ja [recSetsPillar, recSingle])]

def exC2 : Exec := fun cmd =>
  if cmd = lowstate_sls_cmd "m1" "base" (String.mk (re_sub_dev (json_dumps pilKV))) then
    ⟨0, some (jo [("local", ja [])])⟩
  else if cmd = lowstate_sls_cmd "m2" "base" (String.mk (re_sub_dev (json_dumps pilKV))) then
    ⟨0, some (jo [("local", ja [plainRec])])⟩
  else ⟨1, none⟩

def recSetsOnly : Json :=
  jo [("state", .str "module"), ("name", .str "a"),
      ("state.sls", ja [jo [("mods", ja [])], jo [("pillar", pilKV)]])]

def statesC3a : Json := jo [("local", ja [recSetsOnly, recSingle])]

def statesC3b : Json := jo [("local", ja [recSingle, recSetsOnly])]

def exC3 : Exec := fun cmd =>
  if cmd = lowstate_sls_cmd "m2" "base" (String.mk (re_sub_dev (json_dumps pilKV))) then
    ⟨0, some (jo [("local", ja [plainRec])])⟩
  else if cmd = lowstate_sls_cmd "m2" "base" emptyPillarStr then
    ⟨0, some (jo [("local", ja [])])⟩
  else ⟨1, none⟩

def exNone : Exec := fun _ => ⟨1, none⟩

def exOkNonzero : Exec := fun _ => ⟨1, some (jo [("local", ja [])])⟩

def exNoLocal : Exec := fun _ => ⟨0, some (Json.obj JObj.nil)⟩

def ctxDevKey : Json := jo [("/dev/a", .bool true)]

def strWithQuote : String := String.mk ['/', 'd', 'e', 'v', '/', 'a', '"', 'b']

def ctxDevQuote : Json := jo [("device", .str strWithQuote)]

def ctxScenC : Json := jo [("device", .str "/dev/xvdb")]

def recFoo : Json :=
  jo [("state", .str "module"), ("name", .str "foo_call"),
      ("state.sls", ja [jo [("mods", ja [.str "foo"])]])]

def dataTop : Json := jo [("local", ja [plainRec, recFoo])]

def dataFoo : Json := jo [("local", ja [recPlain1, recPlain2, recPlain3, plainRec])]

def exB : Exec := fun cmd =>
  if cmd = lowstate_sls_cmd "top" "base" emptyPillarStr then ⟨0, some dataTop⟩
  else if cmd = lowstate_sls_cmd "foo" "base" emptyPillarStr then ⟨0, some dataFoo⟩
  else ⟨1, none⟩

def exEmptyAll : Exec := fun _ => ⟨0, some (jo [("local", ja [])])⟩

/-! Basic lemmas about the list conversions. -/

theorem jarrList_jarrOf (l : List Json) : jarrList (jarrOf l) = l := by
  induction l with
  | nil => rfl
  | cons h t ih => simp [jarrOf, jarrList, ih]

theorem jobjFields_jobjOf (l : List (String × Json)) : jobjFields (jobjOf l) = l := by
  induction l with
  | nil => rfl
  | cons h t ih => cases h; simp [jobjOf, jobjFields, ih]

/-! Equation lemmas for the substitution scanner `re_sub_dev`, derived from the
fueled definition via fuel irrelevance. -/

theorem scanClose_length : ∀ l r : List Char, scanClose l = some r → r.length < l.length := by
  intro l
  induction l with
  | nil => intro r h; simp [scanClose] at h
  | cons c cs ih =>
      intro r h
      by_cases hq : c = '"'
      · simp [scanClose, hq] at h
        subst h
        simp
      · by_cases hn : c = '\n'
        · simp [scanClose, hq, hn] at h
        · simp [scanClose, hq, hn] at h
          have := ih r h
          simp
          omega

theorem subFuel_congr : ∀ f g : Nat, ∀ l : List Char,
    l.length ≤ f → l.length ≤ g → subFuel f l = subFuel g l := by
  intro f
  induction f with
  | zero =>
      intro g l hf _
      have : l = [] := by
        cases l with
        | nil => rfl
        | cons c cs => simp at hf
      subst this
      cases g <;> rfl
  | succ f ih =>
      intro g l hf hg
      cases l with
      | nil => cases g <;> rfl
      | cons c cs =>
          cases g with
          | zero => simp at hg
          | succ g =>
              simp only [List.length_cons] at hf hg
              by_cases hq : c = '"'
              · cases hm : (if isPref devPat cs then scanClose (cs.drop 5) else none) with
                | some rest =>
                    have hlen : rest.length < cs.length := by
                      by_cases hp : isPref devPat cs
                      · simp [hp] at hm
                        have h1 := scanClose_length _ _ hm
                        have h2 : (cs.drop 5).length ≤ cs.length := by
                          simp
                        omega
                      · simp [hp] at hm
                    have e1 : subFuel (f + 1) (c :: cs) =
                        '"' :: "/dev/sda2".toList ++ '"' :: subFuel f rest := by
                      simp [subFuel, hq, hm]
                    have e2 : subFuel (g + 1) (c :: cs) =
                        '"' :: "/dev/sda2".toList ++ '"' :: subFuel g rest := by
                      simp [subFuel, hq, hm]
                    rw [e1, e2, ih g rest (by omega) (by omega)]
                | none =>
                    have e1 : subFuel (f + 1) (c :: cs) = c :: subFuel f cs := by
                      simp [subFuel, hq, hm]
                    have e2 : subFuel (g + 1) (c :: cs) = c :: subFuel g cs := by
                      simp [subFuel, hq, hm]
                    rw [e1, e2, ih g cs (by omega) (by omega)]
              · have e1 : subFuel (f + 1) (c :: cs) = c :: subFuel f cs := by
                  simp [subFuel, hq]
                have e2 : subFuel (g + 1) (c :: cs) = c :: subFuel g cs := by
                  simp [subFuel, hq]
                rw [e1, e2, ih g cs (by omega) (by omega)]

theorem re_sub_nil : re_sub_dev [] = [] := rfl

theorem re_sub_cons_ne (c : Char) (cs : List Char) (h : c ≠ '"') :
    re_sub_dev (c :: cs) = c :: re_sub_dev cs := by
  show subFuel (c :: cs).length (c :: cs) = c :: re_sub_dev cs
  simp only [List.length_cons]
  simp [subFuel, h, re_sub_dev]

theorem re_sub_quote_match (cs rest : List Char) (h1 : isPref devPat cs = true)
    (h2 : scanClose (cs.drop 5) = some rest) :
    re_sub_dev ('"' :: cs) = '"' :: "/dev/sda2".toList ++ '"' :: re_sub_dev rest := by
  show subFuel ('"' :: cs).length ('"' :: cs) = _
  simp only [List.length_cons]
  have e : subFuel (cs.length + 1) ('"' :: cs) =
      '"' :: "/dev/sda2".toList ++ '"' :: subFuel cs.length rest := by
    simp [subFuel, h1, h2]
  rw [e]
  have hlen : rest.length < cs.length := by
    have h3 := scanClose_length _ _ h2
    have h4 : (cs.drop 5).length ≤ cs.length := by simp
    omega
  rw [subFuel_congr cs.length rest.length rest (by omega) (by omega)]
  rfl

theorem re_sub_quote_noclose (cs : List Char) (h1 : isPref devPat cs = true)
    (h2 : scanClose (cs.drop 5) = none) :
    re_sub_dev ('"' :: cs) = '"' :: re_sub_dev cs := by
  show subFuel ('"' :: cs).length ('"' :: cs) = _
  simp only [List.length_cons]
  simp [subFuel, h1, h2, re_sub_dev]

theorem re_sub_quote_nopref (cs : List Char) (h1 : isPref devPat cs = false) :
    re_sub_dev ('"' :: cs) = '"' :: re_sub_dev cs := by
  show subFuel ('"' :: cs).length ('"' :: cs) = _
  simp only [List.length_cons]
  simp [subFuel, h1, re_sub_dev]

theorem re_sub_push : ∀ m r : List Char, (∀ c ∈ m, c ≠ '"') →
    re_sub_dev (m ++ r) = m ++ re_sub_dev r := by
  intro m
  induction m with
  | nil => intro r _; rfl
  | cons c cs ih =>
      intro r h
      have hc : c ≠ '"' := h c (by simp)
      have := re_sub_cons_ne c (cs ++ r) hc
      simp only [List.cons_append, this]
      rw [ih r (fun x hx => h x (by simp [hx]))]

theorem scanClose_through : ∀ m r : List Char, (∀ c ∈ m, c ≠ '"' ∧ c ≠ '\n') →
    scanClose (m ++ '"' :: r) = some r := by
  intro m
  induction m with
  | nil => intro r _; simp [scanClose]
  | cons c cs ih =>
      intro r h
      have hc := h c (by simp)
      simp only [List.cons_append, scanClose, hc.1, hc.2, if_false]
      exact ih r (fun x hx => h x (by simp [hx]))

theorem isPref_append_of : ∀ p l m : List Char, isPref p l = true → isPref p (l ++ m) = true := by
  intro p
  induction p with
  | nil => intro l m _; rfl
  | cons q qs ih =>
      intro l m h
      cases l with
      | nil => simp [isPref] at h
      | cons c cs =>
          simp [isPref] at h ⊢
          exact ⟨h.1, ih cs m h.2⟩

theorem isPref_take : ∀ p l : List Char, isPref p l = true ↔ l.take p.length = p := by
  intro p
  induction p with
  | nil => intro l; simp [isPref]
  | cons q qs ih =>
      intro l
      cases l with
      | nil => simp [isPref]
      | cons c cs =>
          simp [isPref, ih cs]
          intro _
          exact ⟨fun h => h.symm, fun h => h.symm⟩

/-! Character-level facts about the `ensure_ascii` escaping. -/

theorem getD_prop (P : Char → Prop) :
    ∀ (l : List Char) (n : Nat) (d : Char), (∀ c ∈ l, P c) → P d → P (l.getD n d) := by
  intro l
  induction l with
  | nil => intro n d _ hd; simpa [List.getD] using hd
  | cons c t ih =>
      intro n d h hd
      cases n with
      | zero => simpa [List.getD_cons_zero] using h c (by simp)
      | succ n =>
          simp only [List.getD_cons_succ]
          exact ih n d (fun x hx => h x (by simp [hx])) hd

theorem hexDigit_ne (n : Nat) : hexDigit n ≠ '"' ∧ hexDigit n ≠ '\n' ∧ hexDigit n ≠ '/' := by
  unfold hexDigit
  exact getD_prop (fun c => c ≠ '"' ∧ c ≠ '\n' ∧ c ≠ '/') _ n '0' (by decide) (by decide)

theorem digitChar_ne (n : Nat) : digitChar n ≠ '"' ∧ digitChar n ≠ '\n' ∧ digitChar n ≠ '/' := by
  unfold digitChar
  exact getD_prop (fun c => c ≠ '"' ∧ c ≠ '\n' ∧ c ≠ '/') _ n '0' (by decide) (by decide)

theorem natCharsF_prop : ∀ f n : Nat, ∀ c ∈ natCharsF f n, c ≠ '"' ∧ c ≠ '\n' := by
  intro f
  induction f with
  | zero => intro n c hc; simp [natCharsF] at hc
  | succ f ih =>
      intro n c hc
      by_cases h : n < 10
      · simp [natCharsF, h] at hc
        subst hc
        exact ⟨(digitChar_ne n).1, (digitChar_ne n).2.1⟩
      · simp [natCharsF, h] at hc
        rcases hc with hc | hc
        · exact ih (n / 10) c hc
        · subst hc
          exact ⟨(digitChar_ne (n % 10)).1, (digitChar_ne (n % 10)).2.1⟩

theorem intChars_prop (i : Int) : ∀ c ∈ intChars i, c ≠ '"' ∧ c ≠ '\n' := by
  intro c hc
  unfold intChars at hc
  by_cases h : i < 0
  · simp [h] at hc
    rcases hc with hc | hc
    · subst hc; exact ⟨by decide, by decide⟩
    · exact natCharsF_prop _ _ c hc
  · simp [h, natChars] at hc
    exact natCharsF_prop _ _ c hc

theorem hex4_mem (n : Nat) (x : Char) (hx : x ∈ hex4 n) : ∃ m, x = hexDigit m := by
  simp only [hex4, List.mem_cons, List.not_mem_nil, or_false] at hx
  rcases hx with rfl | rfl | rfl | rfl <;> exact ⟨_, rfl⟩

theorem escapeChar_sub (c : Char) :
    ∀ x ∈ escapeChar c,
      (x = c ∧ 0x20 ≤ c.toNat ∧ c.toNat ≤ 0x7e) ∨ x ∈ ['\\', 'n', 't', 'r', 'b', 'f', 'u'] ∨
        ∃ m, x = hexDigit m := by
  intro x hx
  unfold escapeChar at hx
  by_cases h1 : c = '"'
  · rw [if_pos h1] at hx
    simp at hx
    rcases hx with rfl | rfl
    · right; left; simp
    · left; subst h1; exact ⟨rfl, by decide⟩
  rw [if_neg h1] at hx
  by_cases h2 : c = '\\'
  · rw [if_pos h2] at hx
    simp at hx
    subst hx
    right; left; simp
  rw [if_neg h2] at hx
  by_cases h3 : c = '\n'
  · rw [if_pos h3] at hx
    simp at hx
    rcases hx with rfl | rfl <;> (right; left; simp)
  rw [if_neg h3] at hx
  by_cases h4 : c = '\t'
  · rw [if_pos h4] at hx
    simp at hx
    rcases hx with rfl | rfl <;> (right; left; simp)
  rw [if_neg h4] at hx
  by_cases h5 : c = '\r'
  · rw [if_pos h5] at hx
    simp at hx
    rcases hx with rfl | rfl <;> (right; left; simp)
  rw [if_neg h5] at hx
  by_cases h6 : c = Char.ofNat 8
  · rw [if_pos h6] at hx
    simp at hx
    rcases hx with rfl | rfl <;> (right; left; simp)
  rw [if_neg h6] at hx
  by_cases h7 : c = Char.ofNat 12
  · rw [if_pos h7] at hx
    simp at hx
    rcases hx with rfl | rfl <;> (right; left; simp)
  rw [if_neg h7] at hx
  by_cases h8 : 0x20 ≤ c.toNat ∧ c.toNat ≤ 0x7e
  · rw [if_pos h8] at hx
    simp at hx
    subst hx
    exact Or.inl ⟨rfl, h8⟩
  rw [if_neg h8] at hx
  by_cases h9 : c.toNat < 0x10000
  · rw [if_pos h9] at hx
    simp only [List.mem_cons] at hx
    rcases hx with rfl | rfl | hx
    · right; left; simp
    · right; left; simp
    · exact Or.inr (Or.inr (hex4_mem _ x hx))
  · rw [if_neg h9] at hx
    dsimp only at hx
    simp only [List.mem_append, List.mem_cons, List.not_mem_nil, or_false] at hx
    rcases hx with (rfl | rfl | hx) | (rfl | rfl | hx)
    · right; left; simp
    · right; left; simp
    · exact Or.inr (Or.inr (hex4_mem _ x hx))
    · right; left; simp
    · right; left; simp
    · exact Or.inr (Or.inr (hex4_mem _ x hx))

theorem mem_escapeChar_ne_quote (c : Char) (hc : c ≠ '"') : ∀ x ∈ escapeChar c, x ≠ '"' := by
  intro x hx
  rcases escapeChar_sub c x hx with ⟨rfl, _⟩ | hm | ⟨m, rfl⟩
  · exact hc
  · intro h; subst h; revert hm; decide
  · exact (hexDigit_ne m).1

theorem mem_escapeChar_ne_nl (c : Char) : ∀ x ∈ escapeChar c, x ≠ '\n' := by
  intro x hx
  rcases escapeChar_sub c x hx with ⟨rfl, hb⟩ | hm | ⟨m, rfl⟩
  · intro h
    rw [h] at hb
    revert hb
    decide
  · intro h; subst h; revert hm; decide
  · exact (hexDigit_ne m).2.1

theorem escapeChar_self_or_bs (c : Char) :
    escapeChar c = [c] ∨ ∃ t, escapeChar c = '\\' :: t := by
  unfold escapeChar
  by_cases h1 : c = '"'
  · rw [if_pos h1]; right; exact ⟨_, rfl⟩
  rw [if_neg h1]
  by_cases h2 : c = '\\'
  · rw [if_pos h2]; right; exact ⟨_, rfl⟩
  rw [if_neg h2]
  by_cases h3 : c = '\n'
  · rw [if_pos h3]; right; exact ⟨_, rfl⟩
  rw [if_neg h3]
  by_cases h4 : c = '\t'
  · rw [if_pos h4]; right; exact ⟨_, rfl⟩
  rw [if_neg h4]
  by_cases h5 : c = '\r'
  · rw [if_pos h5]; right; exact ⟨_, rfl⟩
  rw [if_neg h5]
  by_cases h6 : c = Char.ofNat 8
  · rw [if_pos h6]; right; exact ⟨_, rfl⟩
  rw [if_neg h6]
  by_cases h7 : c = Char.ofNat 12
  · rw [if_pos h7]; right; exact ⟨_, rfl⟩
  rw [if_neg h7]
  by_cases h8 : 0x20 ≤ c.toNat ∧ c.toNat ≤ 0x7e
  · rw [if_pos h8]; left; rfl
  rw [if_neg h8]
  by_cases h9 : c.toNat < 0x10000
  · rw [if_pos h9]; right; exact ⟨_, rfl⟩
  · rw [if_neg h9]
    right
    exact ⟨'u' :: hex4 (0xd800 + (c.toNat - 0x10000) / 1024) ++
      '\\' :: 'u' :: hex4 (0xdc00 + (c.toNat - 0x10000) % 1024), by simp⟩

theorem escL_cons (c : Char) (l : List Char) : escL (c :: l) = escapeChar c ++ escL l := by
  simp [escL]

theorem escL_append (a b : List Char) : escL (a ++ b) = escL a ++ escL b := by
  simp [escL]

theorem escL_no_quote (l : List Char) (h : ∀ c ∈ l, c ≠ '"') : ∀ x ∈ escL l, x ≠ '"' := by
  intro x hx
  simp only [escL, List.mem_flatten, List.mem_map] at hx
  obtain ⟨a, ⟨c, hc, rfl⟩, hxa⟩ := hx
  exact mem_escapeChar_ne_quote c (h c hc) x hxa

theorem escL_no_nl (l : List Char) : ∀ x ∈ escL l, x ≠ '\n' := by
  intro x hx
  simp only [escL, List.mem_flatten, List.mem_map] at hx
  obtain ⟨a, ⟨c, hc, rfl⟩, hxa⟩ := hx
  exact mem_escapeChar_ne_nl c x hxa

theorem isPref_escL :
    ∀ pat : List Char, (∀ p ∈ pat, escapeChar p = [p] ∧ p ≠ '\\' ∧ p ≠ '"') →
      ∀ l r : List Char, isPref pat (escL l ++ '"' :: r) = true → isPref pat l = true := by
  intro pat
  induction pat with
  | nil => intro _ l r _; rfl
  | cons p ps ih =>
      intro hplain l r h
      have hp := hplain p (by simp)
      cases l with
      | nil =>
          exfalso
          simp [escL, isPref] at h
          exact hp.2.2 h.1
      | cons x xs =>
          rw [escL_cons, List.append_assoc] at h
          rcases escapeChar_self_or_bs x with he | ⟨t, he⟩
          · rw [he] at h
            simp only [List.cons_append, isPref, Bool.and_eq_true, decide_eq_true_eq] at h
            simp only [isPref, Bool.and_eq_true, decide_eq_true_eq]
            exact ⟨h.1, ih (fun q hq => hplain q (by simp [hq])) xs r h.2⟩
          · rw [he] at h
            simp only [List.cons_append, isPref, Bool.and_eq_true, decide_eq_true_eq] at h
            exact absurd h.1 hp.2.1

/-! Behaviour of the scanner on one serialized (quoted, escaped) string
followed by a continuation that cannot start a new device-path match. -/

theorem noQuote_chars (s : String) (hq : noQuote s = true) : ∀ c ∈ s.toList, c ≠ '"' := by
  intro c hc
  have := List.all_eq_true.mp hq c hc
  simpa using this

theorem head_cons_ne (c : Char) (r : List Char) (h : c ≠ '/') : (c :: r).head? ≠ some '/' := by
  simp [h]

theorem isPref_devPat_false_of_head (r : List Char) (hr : r.head? ≠ some '/') :
    isPref devPat r = false := by
  cases r with
  | nil => decide
  | cons a as =>
      have ha : a ≠ '/' := by
        intro h
        exact hr (by simp [h])
      rw [show devPat = ['/', 'd', 'e', 'v', '/'] from by decide]
      simp [isPref, Ne.symm ha]

theorem re_sub_quoted_str (s : String) (hq : noQuote s = true) (r : List Char)
    (hr : r.head? ≠ some '/') :
    re_sub_dev ('"' :: (escChars s ++ '"' :: r)) =
      '"' :: (escChars (devStr s) ++ '"' :: re_sub_dev r) := by
  have hqs := noQuote_chars s hq
  by_cases hp : isPref devPat s.toList
  · have hdec : s.toList = devPat ++ s.toList.drop 5 := by
      have ht := (isPref_take devPat s.toList).1 hp
      have h5 : devPat.length = 5 := by decide
      rw [h5] at ht
      conv_lhs => rw [← List.take_append_drop 5 s.toList]
      rw [ht]
    have hesc : escChars s = devPat ++ escL (s.toList.drop 5) := by
      show escL s.toList = _
      conv_lhs => rw [hdec]
      rw [escL_append, show escL devPat = devPat from by decide]
    have hpref : isPref devPat (escChars s ++ '"' :: r) = true := by
      rw [hesc, List.append_assoc]
      exact isPref_append_of devPat devPat _ (by decide)
    have hclose : scanClose ((escChars s ++ '"' :: r).drop 5) = some r := by
      rw [hesc, List.append_assoc]
      have h5 : devPat.length = 5 := by decide
      rw [← h5, List.drop_left]
      apply scanClose_through
      intro c hc
      refine ⟨escL_no_quote _ ?_ c hc, escL_no_nl _ c hc⟩
      intro x hx
      exact hqs x (List.drop_subset 5 s.toList hx)
    rw [re_sub_quote_match _ _ hpref hclose]
    have hds : devStr s = "/dev/sda2" := by
      unfold devStr
      rw [if_pos hp]
    rw [hds]
    have he9 : escChars "/dev/sda2" = "/dev/sda2".toList := by decide
    rw [he9]
    simp
  · have hds : devStr s = s := by
      unfold devStr
      rw [if_neg hp]
    have hpref : isPref devPat (escChars s ++ '"' :: r) = false := by
      by_contra hcon
      have hT : isPref devPat (escChars s ++ '"' :: r) = true := by
        revert hcon
        cases isPref devPat (escChars s ++ '"' :: r) <;> simp
      exact hp (isPref_escL devPat (by decide) s.toList r hT)
    rw [re_sub_quote_nopref _ hpref]
    rw [re_sub_push (escChars s) ('"' :: r) (escL_no_quote _ hqs)]
    rw [re_sub_quote_nopref r (isPref_devPat_false_of_head r hr)]
    rw [hds]

/-! The central normalization theorem: on a context all of whose strings are
quote-free, serialize-then-substitute equals substitute-structurally (keys
included) then serialize. -/

mutual
theorem subDumpJ : ∀ j : Json, cleanJson j = true → ∀ r : List Char, r.head? ≠ some '/' →
    re_sub_dev (dumpChars j ++ r) = dumpChars (devMap j) ++ re_sub_dev r
  | .null, _, r, _ => by
      rw [show dumpChars Json.null = "null".toList from rfl]
      rw [re_sub_push _ r (by decide)]
      rfl
  | .bool true, _, r, _ => by
      rw [show dumpChars (Json.bool true) = "true".toList from rfl]
      rw [re_sub_push _ r (by decide)]
      rfl
  | .bool false, _, r, _ => by
      rw [show dumpChars (Json.bool false) = "false".toList from rfl]
      rw [re_sub_push _ r (by decide)]
      rfl
  | .num n, _, r, _ => by
      rw [show dumpChars (Json.num n) = intChars n from rfl]
      rw [re_sub_push _ r (fun c hc => (intChars_prop n c hc).1)]
      rfl
  | .str s, h, r, hr => by
      have hq : noQuote s = true := by simpa [cleanJson] using h
      have e : dumpChars (Json.str s) ++ r = '"' :: (escChars s ++ '"' :: r) := by
        simp [dumpChars]
      rw [e, re_sub_quoted_str s hq r hr]
      simp [dumpChars, devMap]
  | .arr l, h, r, hr => by
      have hc : cleanArr l = true := by simpa [cleanJson] using h
      have e : dumpChars (Json.arr l) ++ r = '[' :: (dumpArr l ++ (']' :: r)) := by
        simp [dumpChars]
      rw [e]
      rw [re_sub_cons_ne '[' _ (by decide)]
      rw [subDumpA l hc (']' :: r) (head_cons_ne _ _ (by decide))]
      rw [re_sub_cons_ne ']' r (by decide)]
      simp [dumpChars, devMap]
  | .obj o, h, r, hr => by
      have hc : cleanObj o = true := by simpa [cleanJson] using h
      have e : dumpChars (Json.obj o) ++ r = lbrace :: (dumpObj o ++ (rbrace :: r)) := by
        simp [dumpChars]
      rw [e]
      rw [re_sub_cons_ne lbrace _ (by decide)]
      rw [subDumpO o hc (rbrace :: r) (head_cons_ne _ _ (by decide))]
      rw [re_sub_cons_ne rbrace r (by decide)]
      simp [dumpChars, devMap]
theorem subDumpA : ∀ l : JArr, cleanArr l = true → ∀ r : List Char, r.head? ≠ some '/' →
    re_sub_dev (dumpArr l ++ r) = dumpArr (devMapArr l) ++ re_sub_dev r
  | .nil, _, r, _ => by simp [dumpArr, devMapArr]
  | .cons x .nil, h, r, hr => by
      have hx : cleanJson x = true := by simpa [cleanArr] using h
      simpa [dumpArr, devMapArr] using subDumpJ x hx r hr
  | .cons x (.cons y ys), h, r, hr => by
      have h2 : (cleanJson x && cleanArr (JArr.cons y ys)) = true := h
      simp only [Bool.and_eq_true] at h2
      obtain ⟨hx, hrest⟩ := h2
      have e : dumpArr (JArr.cons x (JArr.cons y ys)) ++ r =
          dumpChars x ++ (',' :: ' ' :: (dumpArr (JArr.cons y ys) ++ r)) := by
        simp [dumpArr]
      rw [e]
      rw [subDumpJ x hx _ (head_cons_ne _ _ (by decide))]
      rw [re_sub_cons_ne ',' _ (by decide)]
      rw [re_sub_cons_ne ' ' _ (by decide)]
      rw [subDumpA (JArr.cons y ys) hrest r hr]
      simp [dumpArr, devMapArr]
theorem subDumpO : ∀ o : JObj, cleanObj o = true → ∀ r : List Char, r.head? ≠ some '/' →
    re_sub_dev (dumpObj o ++ r) = dumpObj (devMapObj o) ++ re_sub_dev r
  | .nil, _, r, _ => by simp [dumpObj, devMapObj]
  | .cons k v .nil, h, r, hr => by
      have h2 : ((noQuote k && cleanJson v) && cleanObj JObj.nil) = true := h
      simp only [Bool.and_eq_true] at h2
      obtain ⟨⟨hk, hv⟩, _⟩ := h2
      have e : dumpObj (JObj.cons k v JObj.nil) ++ r =
          '"' :: (escChars k ++ '"' :: (':' :: ' ' :: (dumpChars v ++ r))) := by
        simp [dumpObj]
      rw [e]
      rw [re_sub_quoted_str k hk _ (head_cons_ne _ _ (by decide))]
      rw [re_sub_cons_ne ':' _ (by decide)]
      rw [re_sub_cons_ne ' ' _ (by decide)]
      rw [subDumpJ v hv r hr]
      simp [dumpObj, devMapObj]
  | .cons k v (.cons k2 v2 t), h, r, hr => by
      have h2 : ((noQuote k && cleanJson v) && cleanObj (JObj.cons k2 v2 t)) = true := h
      simp only [Bool.and_eq_true] at h2
      obtain ⟨⟨hk, hv⟩, hrest⟩ := h2
      have e : dumpObj (JObj.cons k v (JObj.cons k2 v2 t)) ++ r =
          '"' :: (escChars k ++ '"' ::
            (':' :: ' ' :: (dumpChars v ++ (',' :: ' ' :: (dumpObj (JObj.cons k2 v2 t) ++ r))))) := by
        simp [dumpObj]
      rw [e]
      rw [re_sub_quoted_str k hk _ (head_cons_ne _ _ (by decide))]
      rw [re_sub_cons_ne ':' _ (by decide)]
      rw [re_sub_cons_ne ' ' _ (by decide)]
      rw [subDumpJ v hv _ (head_cons_ne _ _ (by decide))]
      rw [re_sub_cons_ne ',' _ (by decide)]
      rw [re_sub_cons_ne ' ' _ (by decide)]
      rw [subDumpO (JObj.cons k2 v2 t) hrest r hr]
      simp [dumpObj, devMapObj]
end

/-! Idempotence of the substitution on arbitrary character strings. -/

theorem pref_decomp (l : List Char) (hp : isPref devPat l = true) : l = devPat ++ l.drop 5 := by
  have ht := (isPref_take devPat l).1 hp
  have h5 : devPat.length = 5 := by decide
  rw [h5] at ht
  conv_lhs => rw [← List.take_append_drop 5 l]
  rw [ht]

theorem isPref_re_sub : ∀ (pat l : List Char), (∀ c ∈ pat, c ≠ '"') →
    isPref pat (re_sub_dev l) = true → isPref pat l = true := by
  intro pat l
  induction l generalizing pat with
  | nil => intro _ h; exact h
  | cons c cs ih =>
      intro hpat h
      by_cases hq : c = '"'
      · subst hq
        cases pat with
        | nil => rfl
        | cons p ps =>
            exfalso
            have hp : p ≠ '"' := hpat p (by simp)
            by_cases hpd : isPref devPat cs
            · cases hsc : scanClose (cs.drop 5) with
              | some rest =>
                  rw [re_sub_quote_match cs rest hpd hsc] at h
                  simp [isPref] at h
                  exact hp h.1
              | none =>
                  rw [re_sub_quote_noclose cs hpd hsc] at h
                  simp [isPref] at h
                  exact hp h.1
            · have hF : isPref devPat cs = false := by
                revert hpd
                cases isPref devPat cs <;> simp
              rw [re_sub_quote_nopref cs hF] at h
              simp [isPref] at h
              exact hp h.1
      · rw [re_sub_cons_ne c cs hq] at h
        cases pat with
        | nil => rfl
        | cons p ps =>
            simp only [isPref, Bool.and_eq_true, decide_eq_true_eq] at h ⊢
            exact ⟨h.1, ih ps (fun x hx => hpat x (by simp [hx])) h.2⟩

theorem scanClose_re_sub_none : ∀ l : List Char, scanClose l = none →
    scanClose (re_sub_dev l) = none := by
  intro l
  induction l with
  | nil => intro _; rfl
  | cons c cs ih =>
      intro h
      by_cases hq : c = '"'
      · exfalso
        subst hq
        simp [scanClose] at h
      · by_cases hn : c = '\n'
        · subst hn
          rw [re_sub_cons_ne '\n' cs (by decide)]
          simp [scanClose]
        · have h2 : scanClose cs = none := by simpa [scanClose, hq, hn] using h
          rw [re_sub_cons_ne c cs hq]
          simpa [scanClose, hq, hn] using ih h2

theorem re_sub_idem : ∀ l : List Char, re_sub_dev (re_sub_dev l) = re_sub_dev l := by
  have main : ∀ n : Nat, ∀ l : List Char, l.length ≤ n →
      re_sub_dev (re_sub_dev l) = re_sub_dev l := by
    intro n
    induction n with
    | zero =>
        intro l hl
        cases l with
        | nil => rfl
        | cons c cs => simp at hl
    | succ n ih =>
        intro l hl
        cases l with
        | nil => rfl
        | cons c cs =>
            simp only [List.length_cons] at hl
            by_cases hq : c = '"'
            · subst hq
              by_cases hpd : isPref devPat cs
              · cases hsc : scanClose (cs.drop 5) with
                | some rest =>
                    rw [re_sub_quote_match cs rest hpd hsc]
                    have hpd2 : isPref devPat ("/dev/sda2".toList ++ '"' :: re_sub_dev rest) = true :=
                      isPref_append_of _ _ _ (by decide)
                    have h9 : "/dev/sda2".toList ++ '"' :: re_sub_dev rest =
                        devPat ++ ("sda2".toList ++ '"' :: re_sub_dev rest) := by
                      rw [show "/dev/sda2".toList = devPat ++ "sda2".toList from by decide]
                      simp
                    have hsc2 : scanClose (("/dev/sda2".toList ++ '"' :: re_sub_dev rest).drop 5) =
                        some (re_sub_dev rest) := by
                      rw [h9, ← show devPat.length = 5 from by decide, List.drop_left]
                      exact scanClose_through _ _ (by decide)
                    have hshape : ('"' :: "/dev/sda2".toList ++ '"' :: re_sub_dev rest : List Char) =
                        '"' :: ("/dev/sda2".toList ++ '"' :: re_sub_dev rest) := by simp
                    rw [hshape, re_sub_quote_match _ _ hpd2 hsc2]
                    have hr1 := scanClose_length _ _ hsc
                    have hr2 : (cs.drop 5).length ≤ cs.length := by simp
                    rw [ih rest (by omega)]
                    exact hshape
                | none =>
                    rw [re_sub_quote_noclose cs hpd hsc]
                    have hdec := pref_decomp cs hpd
                    have hpush : re_sub_dev cs = devPat ++ re_sub_dev (cs.drop 5) := by
                      conv_lhs => rw [hdec]
                      exact re_sub_push devPat _ (by decide)
                    have hpd2 : isPref devPat (re_sub_dev cs) = true := by
                      rw [hpush]
                      exact isPref_append_of _ _ _ (by decide)
                    have hsc2 : scanClose ((re_sub_dev cs).drop 5) = none := by
                      rw [hpush, ← show devPat.length = 5 from by decide, List.drop_left]
                      exact scanClose_re_sub_none _ hsc
                    rw [re_sub_quote_noclose _ hpd2 hsc2]
                    rw [ih cs (by omega)]
              · have hF : isPref devPat cs = false := by
                  revert hpd
                  cases isPref devPat cs <;> simp
                rw [re_sub_quote_nopref cs hF]
                have hF2 : isPref devPat (re_sub_dev cs) = false := by
                  by_contra hcon
                  have hT : isPref devPat (re_sub_dev cs) = true := by
                    revert hcon
                    cases isPref devPat (re_sub_dev cs) <;> simp
                  have := isPref_re_sub devPat cs (by decide) hT
                  rw [hF] at this
                  exact Bool.false_ne_true this
                rw [re_sub_quote_nopref _ hF2]
                rw [ih cs (by omega)]
            · rw [re_sub_cons_ne c cs hq]
              rw [re_sub_cons_ne c _ hq]
              rw [ih cs (by omega)]
  intro l
  exact main l.length l le_rfl

/-! Lemmas about the counting functions. -/

theorem bind_ok_eq {α β : Type} (x : α) (f : α → Except ScriptError β) :
    ((Except.ok x : Except ScriptError α) >>= f) = f x := rfl

theorem bind_error_eq {α β : Type} (e : ScriptError) (f : α → Except ScriptError β) :
    ((Except.error e : Except ScriptError α) >>= f) = .error e := rfl

theorem mapE_ok {α β : Type} (x : α) (f : α → β) :
    (Except.ok x : Except ScriptError α).map f = .ok (f x) := rfl

theorem mapE_error {α β : Type} (e : ScriptError) (f : α → β) :
    (Except.error e : Except ScriptError α).map f = .error e := rfl

theorem exceptBind_ok {α β : Type} {e : Except ScriptError α} {f : α → Except ScriptError β}
    {v : β} (h : e.bind f = .ok v) : ∃ x, e = .ok x ∧ f x = .ok v := by
  cases e with
  | error err => simp [Except.bind] at h
  | ok x => exact ⟨x, rfl, h⟩

theorem count_record_skip (rl : RL) (env : String) (p r : Json)
    (h : notModuleRecord r = true) : count_record_go rl env p r = .ok (0, p) := by
  cases r with
  | null => simp [notModuleRecord] at h
  | bool b => simp [notModuleRecord] at h
  | num n => simp [notModuleRecord] at h
  | str s =>
      have hc : containsSub "state.sls".toList s.toList = false := by
        simpa [notModuleRecord] using h
      simp only [count_record_go, pyContains, bind_ok_eq]
      rw [hc]
      simp
  | arr l =>
      have hc : (jarrList l).any (fun x => jeq x (Json.str "state.sls")) = false := by
        simpa [notModuleRecord] using h
      simp only [count_record_go, pyContains, bind_ok_eq]
      rw [hc]
      simp
  | obj o =>
      cases hsls : lookupField o "state.sls" with
      | none =>
          have hhf : hasField o "state.sls" = false := by simp [hasField, hsls]
          simp only [count_record_go, pyContains, bind_ok_eq]
          rw [hhf]
          simp
      | some sls =>
          cases hst : lookupField o "state" with
          | none => simp [notModuleRecord, hsls, hst] at h
          | some v =>
              have hne : jeq v (Json.str "module") = false := by
                simpa [notModuleRecord, hsls, hst] using h
              have hhf : hasField o "state.sls" = true := by simp [hasField, hsls]
              simp only [count_record_go, pyContains, bind_ok_eq]
              rw [hhf]
              simp only [if_true, pyGetItem, hst, bind_ok_eq]
              rw [hne]
              simp

theorem count_records_skip (rl : RL) (env : String) (p : Json) (l : List Json)
    (h : ∀ r ∈ l, notModuleRecord r = true) : count_records_go rl env p l = .ok 0 := by
  induction l generalizing p with
  | nil => rfl
  | cons st rest ih =>
      have h1 := count_record_skip rl env p st (h st (by simp))
      have h2 := ih p (fun r hr => h r (by simp [hr]))
      simp [count_records_go, h1, h2, bind_ok_eq]

theorem count_record_pillar (rl : RL) (env : String) (p r : Json) (cp : Nat × Json)
    (h : count_record_go rl env p r = .ok cp) : cp.2 = pillarUpd p r := by
  cases r with
  | null => simp [count_record_go, pyContains, bind_error_eq] at h
  | bool b => simp [count_record_go, pyContains, bind_error_eq] at h
  | num n => simp [count_record_go, pyContains, bind_error_eq] at h
  | str s =>
      simp only [count_record_go, pyContains, bind_ok_eq] at h
      by_cases hc : containsSub "state.sls".toList s.toList = true
      · rw [hc] at h
        simp [pyGetItem, bind_error_eq] at h
      · rw [show containsSub "state.sls".toList s.toList = false from by
          revert hc; cases containsSub "state.sls".toList s.toList <;> simp] at h
        simp at h
        rw [← h]
        simp [pillarUpd]
  | arr l =>
      simp only [count_record_go, pyContains, bind_ok_eq] at h
      by_cases hc : (jarrList l).any (fun x => jeq x (Json.str "state.sls")) = true
      · rw [hc] at h
        simp [pyGetItem, bind_error_eq] at h
      · rw [show (jarrList l).any (fun x => jeq x (Json.str "state.sls")) = false from by
          revert hc; cases (jarrList l).any (fun x => jeq x (Json.str "state.sls")) <;> simp] at h
        simp at h
        rw [← h]
        simp [pillarUpd]
  | obj o =>
      cases hsls : lookupField o "state.sls" with
      | none =>
          have hhf : hasField o "state.sls" = false := by simp [hasField, hsls]
          simp only [count_record_go, pyContains, bind_ok_eq] at h
          rw [hhf] at h
          simp at h
          rw [← h]
          simp [pillarUpd, hhf]
      | some sls0 =>
          have hhf : hasField o "state.sls" = true := by simp [hasField, hsls]
          simp only [count_record_go, pyContains, bind_ok_eq] at h
          rw [hhf] at h
          simp only [if_true] at h
          cases hst : lookupField o "state" with
          | none => simp [pyGetItem, hst, bind_error_eq] at h
          | some v =>
              simp only [pyGetItem, hst, bind_ok_eq] at h
              cases hjm : jeq v (Json.str "module") with
              | false =>
                  rw [hjm] at h
                  simp at h
                  rw [← h]
                  simp [pillarUpd, hhf, hst, hjm]
              | true =>
                  rw [hjm] at h
                  simp only [if_true] at h
                  obtain ⟨nm, hnm, h⟩ := exceptBind_ok h
                  obtain ⟨sls, hsls2, h⟩ := exceptBind_ok h
                  obtain ⟨first, hfirst, h⟩ := exceptBind_ok h
                  obtain ⟨mods, hmods, h⟩ := exceptBind_ok h
                  obtain ⟨slsLen, hlen, h⟩ := exceptBind_ok h
                  obtain ⟨pillar2, hpil, h⟩ := exceptBind_ok h
                  obtain ⟨modList, hml, h⟩ := exceptBind_ok h
                  obtain ⟨c, hcm, h⟩ := exceptBind_ok h
                  have hcp : cp = (c, pillar2) := (Except.ok.inj h).symm
                  have hslseq : sls = sls0 := by
                    rw [hsls] at hsls2
                    simpa using hsls2.symm
                  subst hslseq
                  cases sls with
                  | null => simp [pyIndex] at hfirst
                  | bool b => simp [pyIndex] at hfirst
                  | num n => simp [pyIndex] at hfirst
                  | obj oo => simp [pyIndex] at hfirst
                  | str s2 =>
                      exfalso
                      cases h0 : s2.data[0]? with
                      | none =>
                          rw [show pyIndex (Json.str s2) 0 = .error .indexOutOfRange from by
                            simp [pyIndex, h0]] at hfirst
                          simp at hfirst
                      | some ch =>
                          rw [show pyIndex (Json.str s2) 0 = .ok (.str (String.mk [ch])) from by
                            simp [pyIndex, h0]] at hfirst
                          have hfe : Json.str (String.mk [ch]) = first := Except.ok.inj hfirst
                          rw [← hfe] at hmods
                          simp [pyGetItem] at hmods
                  | arr es =>
                      cases h0 : (jarrList es)[0]? with
                      | none => simp [pyIndex, h0] at hfirst
                      | some f0 =>
                          have hleneq : (jarrList es).length = slsLen := by
                            simpa [pyLen] using hlen
                          by_cases hgt : slsLen > 1
                          · rw [show derive_pillar p (Json.arr es) slsLen =
                                (do
                                  let second ← pyIndex (Json.arr es) 1
                                  pyGetDefault second "pillar" (Json.obj JObj.nil)) from by
                                simp [derive_pillar, hgt]] at hpil
                            obtain ⟨second, hsec, hgd⟩ := exceptBind_ok hpil
                            cases h1 : (jarrList es)[1]? with
                            | none => simp [pyIndex, h1] at hsec
                            | some s1 =>
                                simp only [pyIndex, h1] at hsec
                                have hs1 : s1 = second := by simpa using hsec
                                rw [← hs1] at hgd
                                cases s1 with
                                | obj sd =>
                                    have hp2 : (lookupField sd "pillar").getD (Json.obj JObj.nil) =
                                        pillar2 := by
                                      simpa [pyGetDefault] using hgd
                                    rw [hcp]
                                    simp [pillarUpd, hhf, hst, hjm, hsls, h1, ← hp2]
                                | null => simp [pyGetDefault] at hgd
                                | bool b => simp [pyGetDefault] at hgd
                                | num n => simp [pyGetDefault] at hgd
                                | str s3 => simp [pyGetDefault] at hgd
                                | arr a3 => simp [pyGetDefault] at hgd
                          · rw [show derive_pillar p (Json.arr es) slsLen = .ok p from by
                                simp [derive_pillar, hgt]] at hpil
                            have hp2 : p = pillar2 := Except.ok.inj hpil
                            have h1 : (jarrList es)[1]? = none := by
                              rw [List.getElem?_eq_none_iff]
                              omega
                            rw [hcp]
                            simp [pillarUpd, hhf, hst, hjm, hsls, h1, ← hp2]

theorem count_records_append (rl : RL) (env : String) (p : Json) (l1 l2 : List Json) :
    count_records_go rl env p (l1 ++ l2) =
      (do
        let a ← count_records_go rl env p l1
        let b ← count_records_go rl env (pillarThread p l1) l2
        Except.ok (a + b)) := by
  induction l1 generalizing p with
  | nil =>
      simp only [List.nil_append, count_records_go, pillarThread, List.foldl_nil, bind_ok_eq]
      cases h : count_records_go rl env p l2 with
      | error e => simp [bind_error_eq]
      | ok b => simp [bind_ok_eq]
  | cons st rest ih =>
      simp only [List.cons_append, count_records_go]
      cases hcp : count_record_go rl env p st with
      | error e => simp [bind_error_eq]
      | ok cp =>
          have hpu := count_record_pillar rl env p st cp hcp
          simp only [bind_ok_eq, List.append_eq]
          rw [ih cp.2]
          rw [show pillarThread p (st :: rest) = pillarThread (pillarUpd p st) rest from by
            simp [pillarThread]]
          rw [← hpu]
          cases h1 : count_records_go rl env cp.2 rest with
          | error e => simp [bind_error_eq]
          | ok a =>
              cases h2 : count_records_go rl env (pillarThread cp.2 rest) l2 with
              | error e => simp [bind_ok_eq, bind_error_eq]
              | ok b => simp [bind_ok_eq, Nat.add_assoc]

theorem bind_map_fst_congr {α : Type} (e : Except ScriptError α)
    (f g : α → Except ScriptError (Nat × Json))
    (h : ∀ a, e = .ok a → (f a).map Prod.fst = (g a).map Prod.fst) :
    (e.bind f).map Prod.fst = (e.bind g).map Prod.fst := by
  cases e with
  | error err => rfl
  | ok a => exact h a rfl

theorem count_record_indep (rl : RL) (env : String) (r : Json)
    (hsc : selfContained r = true) (p q : Json) :
    (count_record_go rl env p r).map Prod.fst = (count_record_go rl env q r).map Prod.fst := by
  cases r with
  | null => rfl
  | bool b => rfl
  | num n => rfl
  | str s =>
      simp only [count_record_go, pyContains, bind_ok_eq]
      by_cases hc : containsSub "state.sls".toList s.toList = true
      · rw [hc]
        simp [pyGetItem, bind_error_eq, mapE_error]
      · rw [show containsSub "state.sls".toList s.toList = false from by
          revert hc; cases containsSub "state.sls".toList s.toList <;> simp]
        simp [mapE_ok]
  | arr l =>
      simp only [count_record_go, pyContains, bind_ok_eq]
      by_cases hc : (jarrList l).any (fun x => jeq x (Json.str "state.sls")) = true
      · rw [hc]
        simp [pyGetItem, bind_error_eq, mapE_error]
      · rw [show (jarrList l).any (fun x => jeq x (Json.str "state.sls")) = false from by
          revert hc; cases (jarrList l).any (fun x => jeq x (Json.str "state.sls")) <;> simp]
        simp [mapE_ok]
  | obj o =>
      cases hsls0 : lookupField o "state.sls" with
      | none =>
          have hhf : hasField o "state.sls" = false := by simp [hasField, hsls0]
          simp only [count_record_go, pyContains, bind_ok_eq]
          rw [hhf]
          simp [mapE_ok]
      | some sls0 =>
          have hhf : hasField o "state.sls" = true := by simp [hasField, hsls0]
          simp only [count_record_go, pyContains, bind_ok_eq]
          rw [hhf]
          simp only [if_true]
          cases hst : lookupField o "state" with
          | none => simp [pyGetItem, hst, bind_error_eq, mapE_error]
          | some v =>
              simp only [pyGetItem, hst, bind_ok_eq]
              cases hjm : jeq v (Json.str "module") with
              | false =>
                  simp [mapE_ok]
              | true =>
                  simp only [if_true]
                  apply bind_map_fst_congr
                  intro nm hnm
                  apply bind_map_fst_congr
                  intro sls hsls2
                  have hseq : sls = sls0 := by
                    rw [hsls0] at hsls2
                    simpa using hsls2.symm
                  subst hseq
                  apply bind_map_fst_congr
                  intro first hfirst
                  apply bind_map_fst_congr
                  intro mods hmods
                  apply bind_map_fst_congr
                  intro slsLen hlen
                  cases sls with
                  | null => simp [pyIndex] at hfirst
                  | bool b2 => simp [pyIndex] at hfirst
                  | num n2 => simp [pyIndex] at hfirst
                  | obj oo => simp [pyIndex] at hfirst
                  | str s2 =>
                      exfalso
                      cases h0 : s2.data[0]? with
                      | none =>
                          rw [show pyIndex (Json.str s2) 0 = .error .indexOutOfRange from by
                            simp [pyIndex, h0]] at hfirst
                          simp at hfirst
                      | some ch =>
                          rw [show pyIndex (Json.str s2) 0 = .ok (.str (String.mk [ch])) from by
                            simp [pyIndex, h0]] at hfirst
                          have hfe : Json.str (String.mk [ch]) = first := Except.ok.inj hfirst
                          rw [← hfe] at hmods
                          simp [pyGetItem] at hmods
                  | arr es =>
                      have hleq : slsLen = (jarrList es).length := by
                        simpa [pyLen] using hlen.symm
                      subst hleq
                      cases hjl : jarrList es with
                      | nil =>
                          exfalso
                          rw [show pyIndex (Json.arr es) 0 = .error .indexOutOfRange from by
                            simp [pyIndex, hjl]] at hfirst
                          simp at hfirst
                      | cons e0 tl =>
                          cases tl with
                          | nil =>
                              exfalso
                              simp [selfContained, hsls0, hst, hjm, hjl] at hsc
                          | cons e1 tl2 =>
                              have hgt : (e0 :: e1 :: tl2).length > 1 := by
                                rw [List.length_cons, List.length_cons]
                                omega
                              have hdp : derive_pillar p (Json.arr es) (e0 :: e1 :: tl2).length =
                                  derive_pillar q (Json.arr es) (e0 :: e1 :: tl2).length := by
                                simp only [derive_pillar]
                                rw [if_pos hgt, if_pos hgt]
                              rw [hdp]

theorem count_records_indep (rl : RL) (env : String) (l : List Json)
    (hsc : ∀ r ∈ l, selfContained r = true) (p q : Json) :
    count_records_go rl env p l = count_records_go rl env q l := by
  induction l generalizing p q with
  | nil => rfl
  | cons st rest ih =>
      have hi := count_record_indep rl env st (hsc st (by simp)) p q
      simp only [count_records_go]
      cases h1 : count_record_go rl env p st with
      | error e =>
          rw [h1] at hi
          cases h2 : count_record_go rl env q st with
          | error e2 =>
              rw [h2] at hi
              simp [mapE_error] at hi
              subst hi
              simp [bind_error_eq]
          | ok cq =>
              rw [h2] at hi
              simp [mapE_error, mapE_ok] at hi
      | ok cp =>
          cases h2 : count_record_go rl env q st with
          | error e2 =>
              rw [h1, h2] at hi
              simp [mapE_error, mapE_ok] at hi
          | ok cq =>
              rw [h1, h2] at hi
              simp [mapE_ok] at hi
              simp only [bind_ok_eq]
              rw [ih (fun r hr => hsc r (by simp [hr])) cp.2 cq.2]
              rw [hi]

theorem count_records_foldSum (rl : RL) (env : String) (l : List Json)
    (hsc : ∀ r ∈ l, selfContained r = true) (p : Json) :
    count_records_go rl env p l =
      listFoldSum (l.map (fun r => (count_record_go rl env (Json.obj JObj.nil) r).map Prod.fst)) := by
  induction l generalizing p with
  | nil => rfl
  | cons st rest ih =>
      have hi := count_record_indep rl env st (hsc st (by simp)) p (Json.obj JObj.nil)
      simp only [count_records_go, List.map_cons, listFoldSum]
      cases h1 : count_record_go rl env p st with
      | error e =>
          rw [h1] at hi
          rw [← hi]
          simp [bind_error_eq, mapE_error]
      | ok cp =>
          rw [h1] at hi
          rw [← hi]
          simp only [bind_ok_eq, mapE_ok]
          rw [ih (fun r hr => hsc r (by simp [hr])) cp.2]

theorem listFoldSum_ok_all (L : List (Except ScriptError Nat)) (n : Nat)
    (h : listFoldSum L = .ok n) : ∀ e ∈ L, ∃ k, e = .ok k := by
  induction L generalizing n with
  | nil => intro e he; simp at he
  | cons e0 es ih =>
      intro e he
      simp only [listFoldSum] at h
      obtain ⟨k0, hk0, h⟩ := exceptBind_ok h
      obtain ⟨m, hm, _⟩ := exceptBind_ok h
      rcases List.mem_cons.mp he with rfl | he2
      · exact ⟨k0, hk0⟩
      · exact ih m hm e he2

theorem listFoldSum_ok_sum (L : List (Except ScriptError Nat)) (n : Nat)
    (h : listFoldSum L = .ok n) :
    n = (L.map (fun e => e.toOption.getD 0)).sum := by
  induction L generalizing n with
  | nil =>
      simp only [listFoldSum] at h
      simp [← Except.ok.inj h]
  | cons e0 es ih =>
      simp only [listFoldSum] at h
      obtain ⟨k0, hk0, h⟩ := exceptBind_ok h
      obtain ⟨m, hm, h⟩ := exceptBind_ok h
      have hn : n = k0 + m := (Except.ok.inj h).symm
      subst hn
      rw [ih m hm]
      simp [hk0, Except.toOption]

theorem listFoldSum_all_ok (L : List (Except ScriptError Nat))
    (h : ∀ e ∈ L, ∃ k, e = .ok k) :
    listFoldSum L = .ok ((L.map (fun e => e.toOption.getD 0)).sum) := by
  induction L with
  | nil => rfl
  | cons e0 es ih =>
      obtain ⟨k0, hk0⟩ := h e0 (by simp)
      have h2 := ih (fun e he => h e (by simp [he]))
      simp [listFoldSum, hk0, h2, bind_ok_eq, Except.toOption]

theorem mapFst_bind {α : Type} (e : Except ScriptError α)
    (f : α → Except ScriptError (Nat × Json)) :
    (e >>= f).map Prod.fst = e >>= (fun a => (f a).map Prod.fst) := by
  cases e <;> rfl

theorem bind_ok_id (e : Except ScriptError Nat) : (e >>= fun c => Except.ok c) = e := by
  cases e <;> rfl

theorem count_inner_states_go_local (rl : RL) (env : String) (l : List Json) :
    count_inner_states_go rl env (jo [("local", ja l)]) =
      count_records_go rl env (Json.obj JObj.nil) l := by
  simp [count_inner_states_go, jo, ja, jobjOf, pyGetItem, lookupField, pyIter,
    jarrList_jarrOf, bind_ok_eq]

theorem run_lowstate_ok (fuel : Nat) (ex : Exec) (path env : String) (pil data : Json)
    (B : List Json)
    (hex : execute_command ex
      (lowstate_sls_cmd path env (String.mk (re_sub_dev (json_dumps pil)))) = .ok data)
    (hloc : pyGetItem data "local" = .ok (Json.arr (jarrOf B))) :
    run_lowstate (fuel + 1) ex path env pil =
      (count_inner_states fuel ex env data).map (fun m => B.length + m) := by
  show run_lowstate_go ex (run_lowstate fuel ex) path env pil = _
  simp only [run_lowstate_go, hex, bind_ok_eq, hloc, pyLen, jarrList_jarrOf,
    count_inner_states]
  cases hm : count_inner_states_go (run_lowstate fuel ex) env data with
  | error e => simp [bind_error_eq, mapE_error]
  | ok m => simp [bind_ok_eq, mapE_ok]

/-- Claim C7: the device-path normalization performed by `run_lowstate` —
serialize the pillar with `json.dumps`, then substitute every non-greedy
`"/dev/.*?"` match with `"/dev/sda2"` — is idempotent: running the textual
substitution a second time over the already-normalized serialization changes
nothing, for every override context. -/
theorem C7_normalization_idempotent (ctx : Json) :
    re_sub_dev (re_sub_dev (json_dumps ctx)) = re_sub_dev (json_dumps ctx) :=
  re_sub_idem (json_dumps ctx)

/-- Claim C6 counterexample: the claim "every string value matching the quoted
pattern is replaced by the placeholder, and the context is otherwise passed
unchanged" fails as stated. First input: a context whose *key* is a device
path — the substitution rewrites the key, so the result is not the
values-only map `devMapV`. Second input: a context whose matching string
*value* contains a double quote (`/dev/a"b`) — the lazy match stops at the
serialized escape's quote, leaving `"/dev/sda2"b"` instead of replacing the
value with the placeholder. -/
theorem C6_cex :
    re_sub_dev (json_dumps ctxDevKey) ≠ json_dumps (devMapV ctxDevKey) ∧
    re_sub_dev (json_dumps ctxDevQuote) ≠ json_dumps (devMapV ctxDevQuote) := by
  decide

/-- Claim C6 (amended): for every override context in which no string (key or
value, at any depth) contains a double-quote character, the normalization
performed by `run_lowstate` equals the structural map that replaces every
string starting with `/dev/` — mapping keys included — by the fixed
placeholder `/dev/sda2`; in particular `{"device": "/dev/xvdb"}` is passed to
the nested render as `{"device": "/dev/sda2"}` and never with the original
value. -/
theorem C6_device_normalization (ctx : Json) (h : cleanJson ctx = true) :
    re_sub_dev (json_dumps ctx) = json_dumps (devMap ctx) := by
  have h2 := subDumpJ ctx h [] (by simp)
  simpa [json_dumps, re_sub_nil] using h2

/-- Claim C6 witness: the amended theorem applied to the Scenario C context
`{"device": "/dev/xvdb"}`, whose normalized form is exactly
`{"device": "/dev/sda2"}`. -/
theorem C6_witness :
    cleanJson ctxScenC = true ∧
    re_sub_dev (json_dumps ctxScenC) = json_dumps (devMap ctxScenC) ∧
    jeq (devMap ctxScenC) (jo [("device", Json.str "/dev/sda2")]) = true :=
  ⟨by decide, C6_device_normalization ctxScenC (by decide), by decide⟩

/-- Claim C10: the normalization is a textual substitution on the whole
serialized JSON, so it also rewrites mapping *keys* matching the quoted
`/dev/` pattern (two distinct keys `/dev/a` and `/dev/b` collapse to two
copies of `/dev/sda2`, a structural change beyond value replacement), and it
replaces a matching string in its entirety up to its closing quote even when
the string continues past the device path. -/
theorem C10_textual_substitution_quirks :
    re_sub_dev (json_dumps (jo [("/dev/a", Json.bool true), ("/dev/b", Json.bool false)])) =
      json_dumps (jo [("/dev/sda2", Json.bool true), ("/dev/sda2", Json.bool false)]) ∧
    re_sub_dev (json_dumps (jo [("k", Json.str "/dev/xvdb is my disk")])) =
      json_dumps (jo [("k", Json.str "/dev/sda2")]) := by
  decide

/-- Claim C1: composition law. If the render commanded by `run_lowstate`
succeeds and its `local` field holds the batch `B`, then `run_lowstate`
returns `len B` plus whatever `count_inner_states` returns on the same data
(erring exactly when it errs); and `count_inner_states` of a batch containing
no module-invocation records is exactly `0`. -/
theorem C1_composition_law :
    (∀ (fuel : Nat) (ex : Exec) (path env : String) (pil data : Json) (B : List Json),
      execute_command ex
        (lowstate_sls_cmd path env (String.mk (re_sub_dev (json_dumps pil)))) = .ok data →
      pyGetItem data "local" = .ok (Json.arr (jarrOf B)) →
      run_lowstate (fuel + 1) ex path env pil =
        (count_inner_states fuel ex env data).map (fun m => B.length + m)) ∧
    (∀ (fuel : Nat) (ex : Exec) (env : String) (B : List Json),
      (∀ r ∈ B, notModuleRecord r = true) →
      count_inner_states fuel ex env (jo [("local", ja B)]) = .ok 0) := by
  constructor
  · intro fuel ex path env pil data B hex hloc
    exact run_lowstate_ok fuel ex path env pil data B hex hloc
  · intro fuel ex env B h
    simp only [count_inner_states]
    rw [count_inner_states_go_local]
    exact count_records_skip _ _ _ _ h

/-- Claim C1 witness: Scenario A — a render returning three plain records
contributes `3 + 0`. -/
theorem C1_witness :
    execute_command exA
      (lowstate_sls_cmd "top" "base"
        (String.mk (re_sub_dev (json_dumps (Json.obj JObj.nil))))) = .ok dataA ∧
    pyGetItem dataA "local" = .ok (Json.arr (jarrOf [recPlain1, recPlain2, recPlain3])) ∧
    run_lowstate 2 exA "top" "base" (Json.obj JObj.nil) =
      (count_inner_states 1 exA "base" dataA).map
        (fun m => [recPlain1, recPlain2, recPlain3].length + m) ∧
    count_inner_states 1 exA "base" dataA = .ok 0 ∧
    run_lowstate 2 exA "top" "base" (Json.obj JObj.nil) = .ok 3 :=
  ⟨by decide, by decide,
   C1_composition_law.1 1 exA "top" "base" (Json.obj JObj.nil) dataA
     [recPlain1, recPlain2, recPlain3] (by decide) (by decide),
   by decide, by decide⟩

/-- Claim C2 counterexample: the loop-carried `pillar` variable of
`count_inner_states` is initialised once, before the loop, so a record whose
`state.sls` list has only one entry is rendered with the pillar left behind
by an earlier record, not with the empty mapping. In the batch
`[recSetsPillar, recSingle]`, the single-entry record `recSingle` is rendered
with `{"k": "v"}` (the oracle answers only that command, giving total `1`),
while a render of the same module with the empty mapping would have failed
with a parse error. -/
theorem C2_cex :
    count_inner_states 2 exC2 "base" statesC2 = .ok 1 ∧
    run_lowstate 2 exC2 "m2" "base" (Json.obj JObj.nil) = .error .jsonDecodeFailure := by
  decide

/-- Claim C2 (amended): the override context for a nested render is the
record's own second-entry `pillar` when present; otherwise it is the
loop-carried pillar — the pillar of the nearest preceding record that set
one, or the empty mapping at the start of the batch. Formally, processing a
batch decomposes as `count(p, l1 ++ l2) = count(p, l1) + count(pillarThread p
l1, l2)`, and the pillar carried out of any successfully processed record is
`pillarUpd` of the pillar carried in. -/
theorem C2_pillar_threading :
    (∀ (rl : RL) (env : String) (p : Json) (l1 l2 : List Json),
      count_records_go rl env p (l1 ++ l2) =
        (do
          let a ← count_records_go rl env p l1
          let b ← count_records_go rl env (pillarThread p l1) l2
          Except.ok (a + b))) ∧
    (∀ (rl : RL) (env : String) (p r : Json) (cp : Nat × Json),
      count_record_go rl env p r = .ok cp → cp.2 = pillarUpd p r) :=
  ⟨count_records_append, count_record_pillar⟩

/-- Claim C2 witness: the threading law applied to the counterexample batch —
the record that declares `{"pillar": {"k": "v"}}` carries that pillar out,
and the split law reproduces the total `1`. -/
theorem C2_witness :
    count_record_go (run_lowstate 2 exC2) "base" (Json.obj JObj.nil) recSetsPillar =
      .ok (0, pilKV) ∧
    ((0 : Nat), pilKV).2 = pillarUpd (Json.obj JObj.nil) recSetsPillar ∧
    count_records_go (run_lowstate 2 exC2) "base" (Json.obj JObj.nil)
      ([recSetsPillar] ++ [recSingle]) =
      (do
        let a ← count_records_go (run_lowstate 2 exC2) "base" (Json.obj JObj.nil) [recSetsPillar]
        let b ← count_records_go (run_lowstate 2 exC2) "base"
          (pillarThread (Json.obj JObj.nil) [recSetsPillar]) [recSingle]
        Except.ok (a + b)) :=
  ⟨by decide,
   C2_pillar_threading.2 (run_lowstate 2 exC2) "base" (Json.obj JObj.nil) recSetsPillar
     (0, pilKV) (by decide),
   C2_pillar_threading.1 (run_lowstate 2 exC2) "base" (Json.obj JObj.nil)
     [recSetsPillar] [recSingle]⟩

/-- Claim C3 counterexample: `count_inner_states` is not permutation
invariant. Swapping a pillar-setting record (with an empty `mods` list) past
a single-entry record changes which pillar the latter is rendered with, hence
the command sent to the oracle, hence the total: one order counts `1`, the
other `0`, on the same multiset of records. -/
theorem C3_cex :
    count_inner_states 2 exC3 "base" statesC3a = .ok 1 ∧
    count_inner_states 2 exC3 "base" statesC3b = .ok 0 ∧
    [recSetsOnly, recSingle].Perm [recSingle, recSetsOnly] :=
  ⟨by decide, by decide, List.Perm.swap recSingle recSetsOnly []⟩

/-- Claim C3 (amended): permutation invariance holds for batches in which no
record is a detected module invocation with exactly one `state.sls` entry
(`selfContained`): each such record's contribution is independent of the
loop-carried pillar, so a successful count transfers to any permutation of
the batch. -/
theorem C3_order_independence (fuel : Nat) (ex : Exec) (env : String)
    (l1 l2 : List Json) (n : Nat) (hperm : l1.Perm l2)
    (hsc : ∀ r ∈ l1, selfContained r = true)
    (h : count_inner_states fuel ex env (jo [("local", ja l1)]) = .ok n) :
    count_inner_states fuel ex env (jo [("local", ja l2)]) = .ok n := by
  simp only [count_inner_states] at h ⊢
  rw [count_inner_states_go_local] at h ⊢
  have hsc2 : ∀ r ∈ l2, selfContained r = true := fun r hr => hsc r (hperm.symm.subset hr)
  rw [count_records_foldSum _ _ _ hsc] at h
  rw [count_records_foldSum _ _ _ hsc2]
  have hall := listFoldSum_ok_all _ _ h
  have hsum := listFoldSum_ok_sum _ _ h
  have hall2 : ∀ e ∈ l2.map (fun r =>
      (count_record_go (run_lowstate fuel ex) env (Json.obj JObj.nil) r).map Prod.fst),
      ∃ k, e = .ok k := by
    intro e he
    simp only [List.mem_map] at he
    obtain ⟨r, hr, rfl⟩ := he
    exact hall _ (List.mem_map_of_mem _ (hperm.symm.subset hr))
  rw [listFoldSum_all_ok _ hall2]
  congr 1
  rw [hsum]
  have hp2 := ((hperm.map (fun r =>
    (count_record_go (run_lowstate fuel ex) env (Json.obj JObj.nil) r).map Prod.fst)).map
    (fun e => e.toOption.getD 0))
  exact hp2.sum_eq.symm

/-- Claim C3 witness: the amended invariance applied to a two-record plain
batch and its swap, both counting `0`. -/
theorem C3_witness :
    [recPlain1, recPlain2].Perm [recPlain2, recPlain1] ∧
    (∀ r ∈ [recPlain1, recPlain2], selfContained r = true) ∧
    count_inner_states 1 exNone "base" (jo [("local", ja [recPlain1, recPlain2])]) = .ok 0 ∧
    count_inner_states 1 exNone "base" (jo [("local", ja [recPlain2, recPlain1])]) = .ok 0 :=
  ⟨List.Perm.swap recPlain2 recPlain1 [], by decide, by decide,
   C3_order_independence 1 exNone "base" [recPlain1, recPlain2] [recPlain2, recPlain1] 0
     (List.Perm.swap recPlain2 recPlain1 []) (by decide) (by decide)⟩

/-- Claim C4 counterexample: `execute_command` never inspects the exit code —
a process that exits non-zero but prints parseable output is accepted, so
"exits non-zero → fails with RenderFailure" is false on the code. -/
theorem C4_cex :
    (exOkNonzero (lowstate_cmd "base")).exitCode = 1 ∧
    execute_command exOkNonzero (lowstate_cmd "base") = .ok (jo [("local", ja [])]) := by
  decide

/-- Claim C4 (amended): `execute_command` fails exactly when the captured
standard output is not valid structured data — the exit code is never
examined — and such a failure is fatal: it propagates unchanged through
`run_lowstate` and aborts `count_states_main` with no partial total. -/
theorem C4_parse_failure_fatal :
    (∀ (ex : Exec) (cmd : String),
      (execute_command ex cmd = .error .jsonDecodeFailure ↔ (ex cmd).stdout = none) ∧
      (∀ j : Json, execute_command ex cmd = .ok j ↔ (ex cmd).stdout = some j)) ∧
    (∀ (fuel : Nat) (ex : Exec) (path env : String) (pil : Json) (e : ScriptError),
      execute_command ex
        (lowstate_sls_cmd path env (String.mk (re_sub_dev (json_dumps pil)))) = .error e →
      run_lowstate (fuel + 1) ex path env pil = .error e) ∧
    (∀ (fuel : Nat) (ex : Exec) (e : ScriptError),
      run_lowstate fuel ex "os_setup" "base" (Json.obj JObj.nil) = .error e →
      count_states_main fuel ex = .error e) := by
  refine ⟨?_, ?_, ?_⟩
  · intro ex cmd
    constructor
    · cases h : (ex cmd).stdout <;> simp [execute_command, h]
    · intro j
      cases h : (ex cmd).stdout <;> simp [execute_command, h]
  · intro fuel ex path env pil e hex
    show run_lowstate_go ex (run_lowstate fuel ex) path env pil = _
    simp [run_lowstate_go, hex, bind_error_eq]
  · intro fuel ex e h
    simp [count_states_main, main_low_go, LOW_STATES, h, bind_error_eq]

/-- Claim C4 witness: an oracle whose output never parses makes the render,
`run_lowstate`, and the whole scan fail with the same decode error. -/
theorem C4_witness :
    execute_command exNone
      (lowstate_sls_cmd "os_setup" "base"
        (String.mk (re_sub_dev (json_dumps (Json.obj JObj.nil))))) =
      .error .jsonDecodeFailure ∧
    run_lowstate 1 exNone "os_setup" "base" (Json.obj JObj.nil) = .error .jsonDecodeFailure ∧
    count_states_main 1 exNone = .error .jsonDecodeFailure :=
  ⟨by decide,
   C4_parse_failure_fatal.2.1 0 exNone "os_setup" "base" (Json.obj JObj.nil)
     .jsonDecodeFailure (by decide),
   C4_parse_failure_fatal.2.2 1 exNone .jsonDecodeFailure
     (C4_parse_failure_fatal.2.1 0 exNone "os_setup" "base" (Json.obj JObj.nil)
       .jsonDecodeFailure (by decide))⟩

/-- Claim C5 counterexample: the gateway does not reject output lacking the
top-level `local` key — `execute_command` returns the parsed empty mapping
unchanged; the `local` access only fails later, in the caller. -/
theorem C5_cex :
    execute_command exNoLocal (lowstate_sls_cmd "os_setup" "base" emptyPillarStr) =
      .ok (Json.obj JObj.nil) ∧
    pyGetItem (Json.obj JObj.nil) "local" = .error (.keyMissing "local") := by
  decide

/-- Claim C5 (amended): `execute_command` accepts any successfully parsed
structure, whether or not it carries the `local` key; a missing `local` key
surfaces as the key-lookup failure of `run_lowstate` (or `count_states_main`)
when the caller accesses it, which still aborts the scan. -/
theorem C5_missing_local_fails_at_caller :
    (∀ (ex : Exec) (cmd : String) (j : Json),
      (ex cmd).stdout = some j → execute_command ex cmd = .ok j) ∧
    (∀ (fuel : Nat) (ex : Exec) (path env : String) (pil data : Json) (e : ScriptError),
      execute_command ex
        (lowstate_sls_cmd path env (String.mk (re_sub_dev (json_dumps pil)))) = .ok data →
      pyGetItem data "local" = .error e →
      run_lowstate (fuel + 1) ex path env pil = .error e) := by
  constructor
  · intro ex cmd j h
    simp [execute_command, h]
  · intro fuel ex path env pil data e hex hloc
    show run_lowstate_go ex (run_lowstate fuel ex) path env pil = _
    simp [run_lowstate_go, hex, hloc, bind_ok_eq, bind_error_eq]

/-- Claim C5 witness: a parseable output without `local` passes the gateway
and then fails in `run_lowstate` with the missing-key error. -/
theorem C5_witness :
    (exNoLocal (lowstate_sls_cmd "os_setup" "base" emptyPillarStr)).stdout =
      some (Json.obj JObj.nil) ∧
    execute_command exNoLocal (lowstate_sls_cmd "os_setup" "base" emptyPillarStr) =
      .ok (Json.obj JObj.nil) ∧
    run_lowstate 1 exNoLocal "os_setup" "base" (Json.obj JObj.nil) =
      .error (.keyMissing "local") :=
  ⟨by decide,
   C5_missing_local_fails_at_caller.1 exNoLocal _ _ (by decide),
   C5_missing_local_fails_at_caller.2 0 exNoLocal "os_setup" "base" (Json.obj JObj.nil)
     (Json.obj JObj.nil) (.keyMissing "local") (by decide) (by decide)⟩

/-- Claim C8: a record whose `state` marker is present (and whose `name`
field exists, as every renderer-produced record's does) is expanded exactly
when its mapping contains the key `state.sls` and the marker equals
`"module"`; the expansion takes the module names from the `mods` list of the
first `state.sls` entry and performs one child render per name, summing the
results; a non-detected record contributes `0`. Scenario B: a batch of two
records, one invoking module `foo` whose render yields four plain records,
totals `2 + 4 + 0 = 6`. -/
theorem C8_detection_and_expansion :
    (∀ (fuel : Nat) (ex : Exec) (env : String) (p : Json) (o : JObj) (marker nm : Json),
      lookupField o "state" = some marker →
      lookupField o "name" = some nm →
      (count_record_go (run_lowstate fuel ex) env p (Json.obj o)).map Prod.fst =
        (if hasField o "state.sls" && jeq marker (Json.str "module") then
          c8_expand (run_lowstate fuel ex) env p (Json.obj o)
        else .ok 0)) ∧
    run_lowstate 2 exB "top" "base" (Json.obj JObj.nil) = .ok 6 := by
  constructor
  · intro fuel ex env p o marker nm hst hnm
    by_cases hhf : hasField o "state.sls" = true
    · cases hjm : jeq marker (Json.str "module") with
      | false =>
          simp only [count_record_go, pyContains, bind_ok_eq]
          rw [hhf]
          simp only [if_true, pyGetItem, hst, bind_ok_eq]
          rw [hjm]
          simp [mapE_ok]
      | true =>
          simp only [count_record_go, c8_expand, pyContains, bind_ok_eq]
          rw [hhf]
          simp only [if_true, pyGetItem, hst, hnm, bind_ok_eq]
          rw [hjm]
          simp only [if_true, mapFst_bind, mapE_ok]
          simp [bind_ok_id]
    · have hhfF : hasField o "state.sls" = false := by
        revert hhf
        cases hasField o "state.sls" <;> simp
      rw [show (hasField o "state.sls" && jeq marker (Json.str "module")) = false from by
        rw [hhfF]; simp]
      simp only [count_record_go, pyContains, bind_ok_eq]
      rw [hhfF]
      simp [mapE_ok]
  · decide

/-- Claim C8 witness: the detection equation applied to the `foo`-invoking
record of Scenario B, whose expansion counts the four plain records of the
nested render. -/
theorem C8_witness :
    (count_record_go (run_lowstate 1 exB) "base" (Json.obj JObj.nil) recFoo).map Prod.fst =
      c8_expand (run_lowstate 1 exB) "base" (Json.obj JObj.nil) recFoo ∧
    (count_record_go (run_lowstate 1 exB) "base" (Json.obj JObj.nil) recFoo).map Prod.fst =
      .ok 4 := by
  constructor
  · have h := C8_detection_and_expansion.1 1 exB "base" (Json.obj JObj.nil)
      (jobjOf [("state", Json.str "module"), ("name", Json.str "foo_call"),
        ("state.sls", ja [jo [("mods", ja [Json.str "foo"])]])])
      (Json.str "module") (Json.str "foo_call") (by decide) (by decide)
    rw [if_pos (by decide)] at h
    exact h
  · decide

/-- Claim C9: the scan grand total. With the fixed root module list
`["os_setup"]` and environments `["predeployment", "base"]`, whenever each of
the three renders succeeds, `count_states_main` returns the sum over the root
module of `len(batch) + countNested` (rendered with the empty override
context at the default environment `base`) plus, over each environment,
`len(full-lowstate batch) + countNested`, as one integer. -/
theorem C9_scan_grand_total (g : Nat) (ex : Exec) (data0 data1 data2 : Json)
    (l0 l1 l2 : List Json) (c0 c1 c2 : Nat)
    (h0 : execute_command ex
      (lowstate_sls_cmd "os_setup" "base"
        (String.mk (re_sub_dev (json_dumps (Json.obj JObj.nil))))) = .ok data0)
    (h0l : pyGetItem data0 "local" = .ok (Json.arr (jarrOf l0)))
    (h0c : count_inner_states g ex "base" data0 = .ok c0)
    (h1 : execute_command ex (lowstate_cmd "predeployment") = .ok data1)
    (h1l : pyGetItem data1 "local" = .ok (Json.arr (jarrOf l1)))
    (h1c : count_inner_states (g + 1) ex "predeployment" data1 = .ok c1)
    (h2 : execute_command ex (lowstate_cmd "base") = .ok data2)
    (h2l : pyGetItem data2 "local" = .ok (Json.arr (jarrOf l2)))
    (h2c : count_inner_states (g + 1) ex "base" data2 = .ok c2) :
    count_states_main (g + 1) ex =
      .ok ((l0.length + c0) + ((l1.length + c1) + (l2.length + c2))) := by
  have hr : run_lowstate (g + 1) ex "os_setup" "base" (Json.obj JObj.nil) =
      .ok (l0.length + c0) := by
    rw [run_lowstate_ok g ex "os_setup" "base" (Json.obj JObj.nil) data0 l0 h0 h0l, h0c]
    rfl
  simp only [count_states_main, LOW_STATES, SALTENVS, main_low_go, main_env_go, hr,
    bind_ok_eq, h1, h1l, h2, h2l, pyLen, jarrList_jarrOf, h1c, h2c]
  rfl

/-- Claim C9 witness: the grand-total formula at an oracle whose every render
returns an empty batch — the scan returns `0`. -/
theorem C9_witness :
    execute_command exEmptyAll
      (lowstate_sls_cmd "os_setup" "base"
        (String.mk (re_sub_dev (json_dumps (Json.obj JObj.nil))))) =
      .ok (jo [("local", ja [])]) ∧
    count_inner_states 1 exEmptyAll "base" (jo [("local", ja [])]) = .ok 0 ∧
    count_states_main 2 exEmptyAll = .ok 0 :=
  ⟨by decide, by decide,
   C9_scan_grand_total 1 exEmptyAll (jo [("local", ja [])]) (jo [("local", ja [])])
     (jo [("local", ja [])]) [] [] [] 0 0 0 (by decide) (by decide) (by decide) (by decide)
     (by decide) (by decide) (by decide) (by decide) (by decide)⟩
